import Mathlib

/-!
Verification of the `garden` repository's config-migration rewriter
(`src/garden-service/src/commands/migrate.ts`) and telemetry handler
(`AnalyticsHandler`), against its natural-language specification.

The migration code operates on untyped JSON-like values parsed from YAML,
so we embed a JavaScript-value model (`JVal`) together with the relevant
JS semantics: truthiness, property access (throwing `TypeError` on
`null`/`undefined` receivers), object spread, array spread, property
assignment and `delete`.
-/

set_option maxHeartbeats 1000000

namespace Garden

/-- JavaScript/JSON-like values as produced by `js-yaml`.  `null` models
both JS `null` and `undefined` when stored in a field; an absent field is
`Option.none` at access sites. -/
inductive JVal where
  | null
  | bool (b : Bool)
  | num (n : Int)
  | str (s : String)
  | arr (elems : List JVal)
  | obj (fields : List (String × JVal))
  deriving Repr

/-- Boolean structural equality on `JVal`. -/
def JVal.beq : JVal → JVal → Bool
  | .null, .null => true
  | .bool a, .bool b => a == b
  | .num a, .num b => a == b
  | .str a, .str b => a == b
  | .arr xs, .arr ys => beqList xs ys
  | .obj xs, .obj ys => beqFields xs ys
  | _, _ => false
where
  beqList : List JVal → List JVal → Bool
    | [], [] => true
    | x :: xs, y :: ys => x.beq y && beqList xs ys
    | _, _ => false
  beqFields : List (String × JVal) → List (String × JVal) → Bool
    | [], [] => true
    | (k, v) :: xs, (k₂, v₂) :: ys => k == k₂ && v.beq v₂ && beqFields xs ys
    | _, _ => false

instance : BEq JVal := ⟨JVal.beq⟩

mutual
theorem JVal.beq_iff_eq : ∀ {a b : JVal}, a.beq b = true ↔ a = b
  | .null, .null => by simp [JVal.beq]
  | .null, .bool _ | .null, .num _ | .null, .str _ | .null, .arr _ | .null, .obj _ => by simp [JVal.beq]
  | .bool _, .null | .bool _, .num _ | .bool _, .str _ | .bool _, .arr _ | .bool _, .obj _ => by simp [JVal.beq]
  | .num _, .null | .num _, .bool _ | .num _, .str _ | .num _, .arr _ | .num _, .obj _ => by simp [JVal.beq]
  | .str _, .null | .str _, .bool _ | .str _, .num _ | .str _, .arr _ | .str _, .obj _ => by simp [JVal.beq]
  | .arr _, .null | .arr _, .bool _ | .arr _, .num _ | .arr _, .str _ | .arr _, .obj _ => by simp [JVal.beq]
  | .obj _, .null | .obj _, .bool _ | .obj _, .num _ | .obj _, .str _ | .obj _, .arr _ => by simp [JVal.beq]
  | .bool a, .bool b => by simp [JVal.beq]
  | .num a, .num b => by simp [JVal.beq]
  | .str a, .str b => by simp [JVal.beq]
  | .arr xs, .arr ys => by
      simp only [JVal.beq, JVal.arr.injEq]
      exact JVal.beqList_iff_eq
  | .obj xs, .obj ys => by
      simp only [JVal.beq, JVal.obj.injEq]
      exact JVal.beqFields_iff_eq

theorem JVal.beqList_iff_eq : ∀ {xs ys : List JVal}, JVal.beq.beqList xs ys = true ↔ xs = ys
  | [], [] => by simp [JVal.beq.beqList]
  | [], _ :: _ => by simp [JVal.beq.beqList]
  | _ :: _, [] => by simp [JVal.beq.beqList]
  | x :: xs, y :: ys => by
      simp only [JVal.beq.beqList, Bool.and_eq_true, List.cons.injEq]
      exact and_congr JVal.beq_iff_eq JVal.beqList_iff_eq

theorem JVal.beqFields_iff_eq :
    ∀ {xs ys : List (String × JVal)}, JVal.beq.beqFields xs ys = true ↔ xs = ys
  | [], [] => by simp [JVal.beq.beqFields]
  | [], _ :: _ => by simp [JVal.beq.beqFields]
  | _ :: _, [] => by simp [JVal.beq.beqFields]
  | (k, v) :: xs, (k₂, v₂) :: ys => by
      simp only [JVal.beq.beqFields, Bool.and_eq_true, List.cons.injEq, Prod.mk.injEq]
      constructor
      · rintro ⟨⟨hk, hv⟩, ht⟩
        exact ⟨⟨by simpa using hk, JVal.beq_iff_eq.mp hv⟩, JVal.beqFields_iff_eq.mp ht⟩
      · rintro ⟨⟨hk, hv⟩, ht⟩
        exact ⟨⟨by simp [hk], JVal.beq_iff_eq.mpr hv⟩, JVal.beqFields_iff_eq.mpr ht⟩
end

instance : DecidableEq JVal := fun a b =>
  decidable_of_iff (JVal.beq a b = true) JVal.beq_iff_eq

instance : LawfulBEq JVal where
  eq_of_beq h := JVal.beq_iff_eq.mp h
  rfl := JVal.beq_iff_eq.mpr rfl

deriving instance DecidableEq for Except

/-- JavaScript truthiness of a value. -/
def JVal.truthy : JVal → Bool
  | .null => false
  | .bool b => b
  | .num n => n != 0
  | .str s => s != ""
  | .arr _ => true
  | .obj _ => true

/-- Truthiness of a possibly-absent value (an absent field is `undefined`,
which is falsy). -/
def truthyOpt : Option JVal → Bool
  | some v => v.truthy
  | none => false

/-- Errors the migration code can raise: `ConfigurationError` (thrown
explicitly; we drop the message/path payload) and a JS runtime
`TypeError`. -/
inductive JSError where
  | configurationError
  | typeError
  deriving Repr, DecidableEq

/-- First-occurrence lookup in an object's field list. -/
def lookupField : List (String × JVal) → String → Option JVal
  | [], _ => none
  | (k, v) :: fs, key => if k = key then some v else lookupField fs key

/-- Property read `v.key` on a receiver already known not to be
`null`/`undefined`: objects look the key up, primitives yield `undefined`. -/
def JVal.getF : JVal → String → Option JVal
  | .obj fs, key => lookupField fs key
  | _, _ => none

/-- Property read `v.key` in full: throws `TypeError` when the receiver is
`null`/`undefined`. -/
def getMember : JVal → String → Except JSError (Option JVal)
  | .null, _ => .error .typeError
  | v, key => .ok (v.getF key)

/-- JS property assignment on a field list: overwrite in place when the key
exists, append otherwise. -/
def setField : List (String × JVal) → String → JVal → List (String × JVal)
  | [], key, v => [(key, v)]
  | (k, w) :: fs, key, v => if k = key then (k, v) :: fs else (k, w) :: setField fs key v

/-- Property assignment `v.key = x` (a silent no-op on primitives, as in
non-strict JS). -/
def JVal.setF : JVal → String → JVal → JVal
  | .obj fs, key, v => .obj (setField fs key v)
  | w, _, _ => w

/-- Property deletion on a field list. -/
def delField (fs : List (String × JVal)) (key : String) : List (String × JVal) :=
  fs.filter (fun f => f.1 != key)

/-- Property deletion `delete v.key`. -/
def JVal.delF : JVal → String → JVal
  | .obj fs, key => .obj (delField fs key)
  | w, _ => w

/-- Own enumerable properties contributed by `...v` inside an object
literal: objects give their fields, strings and arrays their indexed
elements, all other values nothing. -/
def spreadFields : JVal → List (String × JVal)
  | .obj fs => fs
  | .str s => s.data.enum.map (fun p => (toString p.1, JVal.str (String.singleton p.2)))
  | .arr xs => xs.enum.map (fun p => (toString p.1, p.2))
  | _ => []

/-- Evaluation of the properties of an object literal: later entries for a
key overwrite earlier ones in place. -/
def insertAll (init : List (String × JVal)) (fs : List (String × JVal)) :
    List (String × JVal) :=
  fs.foldl (fun acc f => setField acc f.1 f.2) init

/-- Array spread `[...v]`: arrays give their elements, strings their
characters, anything else is not iterable and throws `TypeError`. -/
def arraySpread : JVal → Except JSError (List JVal)
  | .arr xs => .ok xs
  | .str s => .ok (s.data.map (fun c => JVal.str (String.singleton c)))
  | _ => .error .typeError

/-- Short-circuit `a || b` where `a` is a possibly-absent field read. -/
def jsOr (a : Option JVal) (b : JVal) : JVal :=
  match a with
  | some v => if v.truthy then v else b
  | none => b

/-- The element list the code's `[...(spec.providers || [])]` spread
produces when it does not throw: the original top-level providers, empty
when the field is absent or falsy. -/
def origProviders (spec : JVal) : List JVal :=
  match jsOr (spec.getF "providers") (.arr []) with
  | .arr qs => qs
  | _ => []

/-! ## The migration rewrite (`src/garden-service/src/commands/migrate.ts`) -/

/-- Embeds `applyFlatStyle`: hoist a truthy `project:` wrapper into a
flat spec of kind `Project`, otherwise a truthy `module:` wrapper into
kind `Module`, otherwise return the spec unchanged. -/
def applyFlatStyle (spec : JVal) : JVal :=
  if truthyOpt (spec.getF "project") then
    .obj (insertAll [("kind", .str "Project")] (spreadFields ((spec.getF "project").getD .null)))
  else if truthyOpt (spec.getF "module") then
    .obj (insertAll [("kind", .str "Module")] (spreadFields ((spec.getF "module").getD .null)))
  else
    spec

/-- Sequencing of a `for … of xs.entries()` loop body that may throw: apply
`f` to each element in order, propagating the first error. -/
def mapExcept (f : JVal → Except JSError JVal) : List JVal → Except JSError (List JVal)
  | [] => .ok []
  | x :: xs => do
      let y ← f x
      let ys ← mapExcept f xs
      pure (y :: ys)

/-- Embeds the inner loop body of `removeLocalOpenFaas`: rename a provider
whose `name` is exactly the string `"local-openfaas"`; reading `.name` off
a `null` element throws. -/
def renameProvider (provider : JVal) : Except JSError JVal := do
  let name? ← getMember provider "name"
  if name? = some (.str "local-openfaas") then
    pure (provider.setF "name" (.str "openfaas"))
  else
    pure provider

/-- Embeds the per-environment loop of `removeLocalOpenFaas`: skip an
environment whose `providers` is falsy, iterate when it is an array
(`.entries()` throws `TypeError` on any truthy non-array), renaming each
provider in place. -/
def renameEnvProviders (env : JVal) : Except JSError JVal := do
  let providers? ← getMember env "providers"
  if truthyOpt providers? then
    match providers?.getD .null with
    | .arr providers => do
        let renamed ← mapExcept renameProvider providers
        pure (env.setF "providers" (.arr renamed))
    | _ => throw .typeError
  else
    pure env

/-- Embeds the first project stanza of `removeLocalOpenFaas`: iterate
`spec.environments.entries()` — a `TypeError` unless the field holds an
array — renaming the providers of each environment. -/
def renameEnvironments (spec : JVal) : Except JSError JVal :=
  match spec.getF "environments" with
  | some (.arr envs) => do
      let envs ← mapExcept renameEnvProviders envs
      pure (spec.setF "environments" (.arr envs))
  | _ => throw .typeError

/-- Embeds the second project stanza of `removeLocalOpenFaas`: when the
top-level `providers` is truthy, iterate it (`TypeError` on a truthy
non-array) and rename matching providers in place. -/
def renameTopProviders (spec : JVal) : Except JSError JVal :=
  if truthyOpt (spec.getF "providers") then
    match (spec.getF "providers").getD .null with
    | .arr providers => do
        let renamed ← mapExcept renameProvider providers
        pure (spec.setF "providers" (.arr renamed))
    | _ => throw .typeError
  else
    pure spec

/-- Embeds `removeLocalOpenFaas`: rename a module type of
`"local-openfaas"` to `"openfaas"`; on a spec of kind `Project`,
additionally rename providers inside every environment and in the
top-level `providers` list. -/
def removeLocalOpenFaas (spec : JVal) : Except JSError JVal := do
  let isProject := spec.getF "kind" == some (.str "Project")
  let spec := if spec.getF "type" == some (.str "local-openfaas")
    then spec.setF "type" (.str "openfaas") else spec
  if isProject then do
    let spec ← renameEnvironments spec
    renameTopProviders spec
  else
    pure spec

/-- Embeds the `varfile` stanza of `removeEnvironmentDefaults`: move a
truthy `environmentDefaults.varfile` to the top level, a
`ConfigurationError` when a truthy top-level `varfile` already exists. -/
def edVarfileStep (spec ed : JVal) : Except JSError JVal :=
  if truthyOpt (ed.getF "varfile") then
    if truthyOpt (spec.getF "varfile") then
      throw .configurationError
    else
      pure (spec.setF "varfile" ((ed.getF "varfile").getD .null))
  else
    pure spec

/-- Embeds the `variables` stanza of `removeEnvironmentDefaults`: spread
the top-level `variables` (or `{}` when falsy) and then
`environmentDefaults.variables` into a fresh object, so the latter wins on
shared keys. -/
def edVariablesStep (spec ed : JVal) : JVal :=
  if truthyOpt (ed.getF "variables") then
    spec.setF "variables"
      (.obj (insertAll (insertAll [] (spreadFields (jsOr (spec.getF "variables") (.obj []))))
        (spreadFields ((ed.getF "variables").getD .null))))
  else
    spec

/-- Embeds the `providers` stanza of `removeEnvironmentDefaults`: the
top-level `providers` (or `[]` when falsy) concatenated by array spread
with `environmentDefaults.providers`. -/
def edProvidersStep (spec ed : JVal) : Except JSError JVal :=
  if truthyOpt (ed.getF "providers") then do
    let origList ← arraySpread (jsOr (spec.getF "providers") (.arr []))
    let edList ← arraySpread ((ed.getF "providers").getD .null)
    pure (spec.setF "providers" (.arr (origList ++ edList)))
  else
    pure spec

/-- Embeds `removeEnvironmentDefaults`: when `environmentDefaults` is
truthy, run the `varfile`, `variables` and `providers` stanzas and delete
the `environmentDefaults` key; otherwise do nothing. -/
def removeEnvironmentDefaults (spec : JVal) : Except JSError JVal := do
  if truthyOpt (spec.getF "environmentDefaults") then do
    let ed := (spec.getF "environmentDefaults").getD .null
    let spec ← edVarfileStep spec ed
    let spec := edVariablesStep spec ed
    let spec ← edProvidersStep spec ed
    pure (spec.delF "environmentDefaults")
  else
    pure spec

/-- The type rename of `removeLocalOpenFaas` in isolation (the first
statement of the function, shared by the expected-outcome functions
below). -/
def typeRenamed (spec : JVal) : JVal :=
  if spec.getF "type" == some (.str "local-openfaas")
  then spec.setF "type" (.str "openfaas") else spec

/-- Expected outcome of renaming one provider (what `renameProvider` does
when it does not throw). -/
def pureRenameProvider (p : JVal) : JVal :=
  if p.getF "name" = some (.str "local-openfaas") then p.setF "name" (.str "openfaas") else p

/-- Expected outcome of renaming one environment's providers (what
`renameEnvProviders` does when it does not throw). -/
def pureRenameEnv (env : JVal) : JVal :=
  if truthyOpt (env.getF "providers") then
    match env.getF "providers" with
    | some (.arr ps) => env.setF "providers" (.arr (ps.map pureRenameProvider))
    | _ => env
  else
    env

/-- An environment on which the provider-rename loop cannot throw:
not `null`, and its `providers`, when truthy, an array of non-`null`
entries. -/
def envOk (env : JVal) : Bool :=
  env != .null &&
    (!truthyOpt (env.getF "providers") ||
      (match env.getF "providers" with
       | some (.arr ps) => ps.all (fun p => p != .null)
       | _ => false))

/-- A top-level `providers` field on which the rename loop cannot throw:
falsy, or an array of non-`null` entries. -/
def topProvidersOk (spec : JVal) : Bool :=
  !truthyOpt (spec.getF "providers") ||
    (match spec.getF "providers" with
     | some (.arr ps) => ps.all (fun p => p != .null)
     | _ => false)

/-- Embeds the per-spec pipeline of the `migrate` command's action:
`applyFlatStyle`, then `removeLocalOpenFaas`, then
`removeEnvironmentDefaults`. -/
def migrateSpec (spec : JVal) : Except JSError JVal := do
  let spec := applyFlatStyle spec
  let spec ← removeLocalOpenFaas spec
  removeEnvironmentDefaults spec

/-! ## Project-root search (`findRoot` in `migrate.ts`) -/

/-- File-system paths as Node's `path` module sees them: a list of
components, either absolute or relative. -/
inductive JPath where
  | abs (components : List String)
  | rel (components : List String)
  deriving DecidableEq, Repr

/-- Truthiness of `parse(path).root`: Node's `path.parse` returns the root
prefix (for example `"/"`) for every absolute path and `""` for every
relative one, so the value is truthy exactly when the path is absolute. -/
def parseRootTruthy : JPath → Bool
  | .abs _ => true
  | .rel _ => false

/-- Embeds `resolve(path, "..")`: resolve against the working directory
when relative, then drop the last component.  The result is always
absolute. -/
def resolveUp (cwd : List String) : JPath → JPath
  | .abs cs => .abs cs.dropLast
  | .rel cs => .abs (cwd ++ cs).dropLast

/-- Abstract file system for `findRoot`: maps a directory path to the
parsed specs of its config file, or `none` when reading/parsing fails
(which `findRoot` swallows). -/
def FileSystem := JPath → Option (List JVal)

/-- Embeds the body of `findRoot`'s probe: `readYaml` keeps only truthy
documents, and the directory is a project root when some spec has a truthy
`project` field or kind `"Project"`. -/
def isProjectRoot (fs : FileSystem) (path : JPath) : Bool :=
  match fs path with
  | some specs =>
      (specs.filter JVal.truthy).any
        (fun spec => truthyOpt (spec.getF "project") || spec.getF "kind" == some (.str "Project"))
  | none => false

/-- Rank used to show `findRoot` terminates: the recursive call always
receives an absolute path. -/
def pathRank : JPath → Nat
  | .abs _ => 0
  | .rel _ => 1

/-- Embeds `findRoot`: return the path if its config holds a project-level
spec; otherwise return `null` when `parse(path).root` is truthy (which
holds for every absolute path, not only the file-system root), else recurse
on the parent. -/
def findRoot (fs : FileSystem) (cwd : List String) (path : JPath) : Option JPath :=
  if isProjectRoot fs path then
    some path
  else if _h : parseRootTruthy path then
    none
  else
    findRoot fs cwd (resolveUp cwd path)
termination_by pathRank path
decreasing_by
  cases path with
  | abs cs => simp [parseRootTruthy] at _h
  | rel cs => simp [resolveUp, pathRank]

/-! ## Telemetry (`AnalyticsHandler` in the analytics module) -/

/-- System information captured at handler construction. -/
structure SystemInfo where
  gardenVersion : String
  platform : String
  platformVersion : String
  deriving DecidableEq, Repr

/-- Project metadata computed from the config graph in `initialize`. -/
structure ProjectMetadata where
  numberOfModules : Nat
  modulesTypes : List String
  numberOfTasks : Nat
  numberOfServices : Nat
  numberOfTests : Nat
  deriving DecidableEq, Repr

/-- Properties attached to every analytics event
(`getBasicAnalyticsProperties`). -/
structure AnalyticsEventProperties where
  projectId : String
  system : SystemInfo
  isCI : Bool
  sessionId : String
  projectMetadata : ProjectMetadata
  deriving DecidableEq, Repr

/-- Properties of a task analytics event, as assembled by `trackTask`. -/
structure AnalyticsTaskEventProperties where
  batchId : String
  taskName : String
  taskType : String
  projectId : String
  system : SystemInfo
  isCI : Bool
  sessionId : String
  projectMetadata : ProjectMetadata
  taskStatus : String
  deriving DecidableEq, Repr

/-- Embeds the `projectId` computation in `AnalyticsHandler.initialize`:
the SHA-256 hash (abstracted as `hash`) of the repository origin name when
that is truthy, the constant `"unset"` otherwise.  (The source calls
`getOriginName` twice; both reads see the same repository, modelled as one
value.) -/
def initializeProjectId (hash : String → String) (originName : Option String) : String :=
  if (match originName with | some s => s != "" | none => false) then
    hash (originName.getD "")
  else
    "unset"

/-- Embeds `AnalyticsHandler.trackTask`: the task name is hashed before it
is placed in the event properties; everything else is passed through. -/
def trackTaskProperties (hash : String → String) (basic : AnalyticsEventProperties)
    (batchId taskName taskType taskStatus : String) : AnalyticsTaskEventProperties :=
  { batchId := batchId
    taskName := hash taskName
    taskType := taskType
    projectId := basic.projectId
    system := basic.system
    isCI := basic.isCI
    sessionId := basic.sessionId
    projectMetadata := basic.projectMetadata
    taskStatus := taskStatus }

/-- Event names the analytics handler reacts to
(`AnalyticsHandler.isSupportedEvent`). -/
def supportedEventsKeys : List String :=
  ["taskPending", "taskProcessing", "taskComplete", "taskError"]

/-- Embeds `isSupportedEvent`. -/
def isSupportedEvent (name : String) : Bool :=
  supportedEventsKeys.contains name

/-- Payload of a task lifecycle event as consumed by `processEvent`. -/
structure TaskEventPayload where
  batchId : String
  name : String
  taskType : String
  deriving DecidableEq, Repr

/-- Embeds `AnalyticsHandler.processEvent`, the any-event listener
registered in `initialize`: a supported event is tracked via `trackTask`
(with the event name as the task status), any other event is ignored. -/
def processEvent (hash : String → String) (basic : AnalyticsEventProperties)
    (name : String) (payload : TaskEventPayload) : Option AnalyticsTaskEventProperties :=
  if isSupportedEvent name then
    some (trackTaskProperties hash basic payload.batchId payload.name payload.taskType name)
  else
    none

/-- Sample system information used to instantiate the telemetry claims. -/
def sampleSystemInfo : SystemInfo := ⟨"0.11.0", "linux", "5.4"⟩

/-- Sample project metadata used to instantiate the telemetry claims. -/
def sampleProjectMetadata : ProjectMetadata := ⟨1, ["container"], 0, 1, 0⟩

/-- Sample basic event properties used to instantiate the telemetry claims. -/
def sampleBasicProperties : AnalyticsEventProperties :=
  ⟨"p", sampleSystemInfo, false, "session", sampleProjectMetadata⟩

/-! ## Helper notions for stating and proving the claims -/

/-- Option alternative: the first value when present, otherwise the second. -/
def oalt : Option JVal → Option JVal → Option JVal
  | some v, _ => some v
  | none, b => b

/-- Value of the last entry for a key in a field list, if any: the value
that key ends up with after evaluating an object literal left to right. -/
def lastVal : List (String × JVal) → String → Option JVal
  | [], _ => none
  | f :: fs, key => oalt (lastVal fs key) (if f.1 = key then some f.2 else none)

/-- Keys of a field list are pairwise distinct (always true of a field
list obtained from an actual JS object). -/
def keysDistinct (fs : List (String × JVal)) : Bool :=
  (fs.map Prod.fst).Nodup

theorem lookupField_setField (fs : List (String × JVal)) (key key' : String) (v : JVal) :
    lookupField (setField fs key v) key' =
      if key' = key then some v else lookupField fs key' := by
  induction fs with
  | nil =>
      by_cases h : key' = key
      · simp [setField, lookupField, h]
      · simp [setField, lookupField, h, Ne.symm h]
  | cons hd tl ih =>
      obtain ⟨k, w⟩ := hd
      by_cases hk : k = key
      · subst hk
        by_cases h' : key' = k
        · simp [setField, lookupField, h']
        · simp [setField, lookupField, h', Ne.symm h']
      · by_cases h' : k = key'
        · subst h'
          simp [setField, lookupField, hk, Ne.symm hk]
        · simp [setField, lookupField, hk, h', ih]

theorem lookupField_delField (fs : List (String × JVal)) (key key' : String) :
    lookupField (delField fs key) key' =
      if key' = key then none else lookupField fs key' := by
  induction fs with
  | nil => simp [delField, lookupField]
  | cons hd tl ih =>
      obtain ⟨k, w⟩ := hd
      by_cases hk : k = key
      · subst hk
        simp only [delField, List.filter_cons] at ih ⊢
        simp only [bne_self_eq_false, if_neg Bool.false_ne_true, ih]
        by_cases h' : key' = k
        · simp [h']
        · simp [h', Ne.symm h', lookupField]
      · simp only [delField, List.filter_cons] at ih ⊢
        rw [if_pos (by simp [bne_iff_ne, hk])]
        by_cases h' : k = key'
        · subst h'
          simp [lookupField, Ne.symm hk, hk, ih]
        · simp [lookupField, h', ih]

theorem insertAll_cons (init : List (String × JVal)) (f : String × JVal)
    (fs : List (String × JVal)) :
    insertAll init (f :: fs) = insertAll (setField init f.1 f.2) fs := rfl

theorem lookupField_insertAll (fs : List (String × JVal)) :
    ∀ (init : List (String × JVal)) (key : String),
      lookupField (insertAll init fs) key = oalt (lastVal fs key) (lookupField init key) := by
  induction fs with
  | nil => intro init key; simp [insertAll, lastVal, oalt]
  | cons f fs ih =>
      intro init key
      rw [insertAll_cons, ih, lastVal]
      cases hl : lastVal fs key with
      | some v => simp [oalt]
      | none =>
          by_cases hk : f.1 = key
          · simp [oalt, lookupField_setField, hk]
          · simp [oalt, lookupField_setField, hk, Ne.symm hk]

theorem oalt_none_right (a : Option JVal) : oalt a none = a := by
  cases a <;> rfl

theorem oalt_assoc (a b c : Option JVal) : oalt (oalt a b) c = oalt a (oalt b c) := by
  cases a <;> cases b <;> rfl

theorem lastVal_append (a b : List (String × JVal)) (key : String) :
    lastVal (a ++ b) key = oalt (lastVal b key) (lastVal a key) := by
  induction a with
  | nil => simp [lastVal, oalt_none_right]
  | cons f a ih => simp only [List.cons_append, lastVal, List.append_eq, ih, oalt_assoc]

theorem lookupField_eq_none (fs : List (String × JVal)) (key : String)
    (h : key ∉ fs.map Prod.fst) : lookupField fs key = none := by
  induction fs with
  | nil => rfl
  | cons f fs ih =>
      simp only [List.map_cons, List.mem_cons, not_or] at h
      rw [lookupField, if_neg (fun hh => h.1 hh.symm)]
      exact ih h.2

/-- A field list with distinct keys is looked up the same from the front
and from the back. -/
theorem lastVal_eq_lookupField (fs : List (String × JVal)) (key : String)
    (h : keysDistinct fs = true) : lastVal fs key = lookupField fs key := by
  induction fs with
  | nil => rfl
  | cons f fs ih =>
      simp only [keysDistinct, List.map_cons, List.nodup_cons, decide_eq_true_eq] at h
      obtain ⟨hne, hnd⟩ := h
      rw [lastVal, lookupField, ih (by simpa [keysDistinct] using hnd)]
      by_cases hk : f.1 = key
      · subst hk
        rw [lookupField_eq_none fs f.1 hne]
        simp [oalt]
      · simp [hk, oalt_none_right]

theorem getF_obj (fs : List (String × JVal)) (key : String) :
    (JVal.obj fs).getF key = lookupField fs key := rfl

theorem getF_setF (fs : List (String × JVal)) (key key' : String) (v : JVal) :
    ((JVal.obj fs).setF key v).getF key' =
      if key' = key then some v else (JVal.obj fs).getF key' := by
  simp [JVal.setF, JVal.getF, lookupField_setField]

theorem getF_delF (fs : List (String × JVal)) (key key' : String) :
    ((JVal.obj fs).delF key).getF key' =
      if key' = key then none else (JVal.obj fs).getF key' := by
  simp [JVal.delF, JVal.getF, lookupField_delField]

/-- A value with a field that looks up is an object. -/
theorem obj_of_getF_eq_some {spec : JVal} {key : String} {v : JVal}
    (h : spec.getF key = some v) : ∃ fs, spec = JVal.obj fs := by
  cases spec <;> simp [JVal.getF] at h ⊢

/-- Setting a field preserves objecthood. -/
theorem setF_obj (fs : List (String × JVal)) (key : String) (v : JVal) :
    ∃ gs, (JVal.obj fs).setF key v = JVal.obj gs := ⟨setField fs key v, rfl⟩

/-- Pointwise success of an effectful loop. -/
theorem mapExcept_eq_ok_map {f : JVal → Except JSError JVal} {g : JVal → JVal} :
    ∀ {xs : List JVal}, (∀ x ∈ xs, f x = .ok (g x)) → mapExcept f xs = .ok (xs.map g) := by
  intro xs
  induction xs with
  | nil => intro _; rfl
  | cons x xs ih =>
      intro h
      simp only [mapExcept, h x (by simp), ih (fun y hy => h y (by simp [hy])), List.map_cons]
      rfl

theorem getF_setF_ne (s : JVal) (key key' : String) (v : JVal) (h : key' ≠ key) :
    (s.setF key v).getF key' = s.getF key' := by
  cases s <;> simp [JVal.setF, JVal.getF, lookupField_setField, h]

theorem getF_setF_eq {fs : List (String × JVal)} {s : JVal} (key : String) (v : JVal)
    (h : s = JVal.obj fs) : (s.setF key v).getF key = some v := by
  subst h
  simp [getF_setF]

theorem getF_delF_ne (s : JVal) (key key' : String) (h : key' ≠ key) :
    (s.delF key).getF key' = s.getF key' := by
  cases s <;> simp [JVal.delF, JVal.getF, lookupField_delField, h]

theorem getF_delF_eq (s : JVal) (key : String) : (s.delF key).getF key = none := by
  cases s <;> simp [JVal.delF, JVal.getF, lookupField_delField]

theorem arraySpread_error {v : JVal} {e : JSError} (h : arraySpread v = .error e) :
    e = .typeError := by
  cases v <;> simp [arraySpread] at h
  all_goals exact h.symm

theorem edVariablesStep_getF_ne (s ed : JVal) (key : String) (hk : key ≠ "variables") :
    (edVariablesStep s ed).getF key = s.getF key := by
  rw [edVariablesStep]
  by_cases hv : truthyOpt (ed.getF "variables") = true
  · rw [if_pos hv, getF_setF_ne _ _ _ _ hk]
  · rw [if_neg hv]

theorem edVariablesStep_obj {fs : List (String × JVal)} (s ed : JVal)
    (h : s = JVal.obj fs) : ∃ gs, edVariablesStep s ed = JVal.obj gs := by
  subst h
  rw [edVariablesStep]
  by_cases hv : truthyOpt (ed.getF "variables") = true
  · rw [if_pos hv]
    exact setF_obj _ _ _
  · rw [if_neg hv]
    exact ⟨fs, rfl⟩

theorem edVarfileStep_obj {fs : List (String × JVal)} {s₁ : JVal} (s ed : JVal)
    (h : s = JVal.obj fs) (hs : edVarfileStep s ed = .ok s₁) :
    ∃ gs, s₁ = JVal.obj gs := by
  subst h
  rw [edVarfileStep] at hs
  by_cases hv : truthyOpt (ed.getF "varfile") = true
  · rw [if_pos hv] at hs
    by_cases ht : truthyOpt ((JVal.obj fs).getF "varfile") = true
    · rw [if_pos ht] at hs
      exact absurd hs (by simp [throw, throwThe, MonadExceptOf.throw])
    · rw [if_neg ht] at hs
      refine ⟨setField fs "varfile" ((ed.getF "varfile").getD .null), ?_⟩
      have := hs
      simp only [pure, Except.pure, Except.ok.injEq] at this
      rw [← this]
      rfl
  · rw [if_neg hv] at hs
    simp only [pure, Except.pure, Except.ok.injEq] at hs
    exact ⟨fs, hs.symm⟩

theorem edProvidersStep_ok_getF_ne {s ed s' : JVal} (key : String) (hk : key ≠ "providers")
    (h : edProvidersStep s ed = .ok s') : s'.getF key = s.getF key := by
  rw [edProvidersStep] at h
  by_cases hv : truthyOpt (ed.getF "providers") = true
  · rw [if_pos hv] at h
    cases ha : arraySpread (jsOr (s.getF "providers") (.arr [])) with
    | error e =>
        rw [ha] at h
        exact absurd h (by simp [Bind.bind, Except.bind])
    | ok la =>
        rw [ha] at h
        cases hb : arraySpread ((ed.getF "providers").getD .null) with
        | error e =>
            rw [hb] at h
            exact absurd h (by simp [Bind.bind, Except.bind])
        | ok lb =>
            rw [hb] at h
            simp only [Bind.bind, Except.bind, pure, Except.pure, Except.ok.injEq] at h
            rw [← h, getF_setF_ne _ _ _ _ hk]
  · rw [if_neg hv] at h
    simp only [pure, Except.pure, Except.ok.injEq] at h
    rw [← h]

theorem edProvidersStep_no_configError (s ed : JVal) :
    edProvidersStep s ed ≠ .error .configurationError := by
  rw [edProvidersStep]
  by_cases hv : truthyOpt (ed.getF "providers") = true
  · rw [if_pos hv]
    cases ha : arraySpread (jsOr (s.getF "providers") (.arr [])) with
    | error e =>
        have he := arraySpread_error ha
        subst he
        simp [Bind.bind, Except.bind]
    | ok la =>
        cases hb : arraySpread ((ed.getF "providers").getD .null) with
        | error e =>
            have he := arraySpread_error hb
            subst he
            simp [Bind.bind, Except.bind]
        | ok lb =>
            simp [Bind.bind, Except.bind, pure, Except.pure]
  · rw [if_neg hv]
    simp [pure, Except.pure]

theorem edVarfileStep_ok_getF_ne {s ed s₁ : JVal} (key : String) (hk : key ≠ "varfile")
    (h : edVarfileStep s ed = .ok s₁) : s₁.getF key = s.getF key := by
  rw [edVarfileStep] at h
  by_cases hv : truthyOpt (ed.getF "varfile") = true
  · rw [if_pos hv] at h
    by_cases ht : truthyOpt (s.getF "varfile") = true
    · rw [if_pos ht] at h
      exact absurd h (by simp [throw, throwThe, MonadExceptOf.throw])
    · rw [if_neg ht] at h
      simp only [pure, Except.pure, Except.ok.injEq] at h
      rw [← h, getF_setF_ne _ _ _ _ hk]
  · rw [if_neg hv] at h
    simp only [pure, Except.pure, Except.ok.injEq] at h
    rw [← h]

theorem edVarfileStep_ok_of_no_conflict {s ed : JVal}
    (h : ¬(truthyOpt (ed.getF "varfile") = true ∧ truthyOpt (s.getF "varfile") = true)) :
    ∃ s₁, edVarfileStep s ed = .ok s₁ := by
  rw [edVarfileStep]
  by_cases hv : truthyOpt (ed.getF "varfile") = true
  · have ht : ¬truthyOpt (s.getF "varfile") = true := fun hh => h ⟨hv, hh⟩
    rw [if_pos hv, if_neg ht]
    exact ⟨_, rfl⟩
  · rw [if_neg hv]
    exact ⟨_, rfl⟩

theorem jsOr_providers_arr {s : JVal}
    (harr : (∃ qs, s.getF "providers" = some (.arr qs))
      ∨ truthyOpt (s.getF "providers") = false) :
    jsOr (s.getF "providers") (.arr []) = .arr (origProviders s) := by
  rcases harr with ⟨qs, hq⟩ | hq
  · simp [jsOr, hq, JVal.truthy, origProviders]
  · cases hgq : s.getF "providers" with
    | none => simp [jsOr, origProviders, hgq]
    | some v =>
        rw [hgq] at hq
        simp only [truthyOpt] at hq
        have hj : jsOr (some v) (JVal.arr []) = .arr [] := by simp [jsOr, hq]
        simp [origProviders, hgq, hj]

theorem edProvidersStep_compute {s ed : JVal} {ps : List JVal}
    (harr : (∃ qs, s.getF "providers" = some (.arr qs))
      ∨ truthyOpt (s.getF "providers") = false)
    (hps : ed.getF "providers" = some (.arr ps)) :
    edProvidersStep s ed = .ok (s.setF "providers" (.arr (origProviders s ++ ps))) := by
  rw [edProvidersStep, if_pos (by simp [hps, truthyOpt, JVal.truthy]), hps,
    jsOr_providers_arr harr]
  simp [arraySpread, Bind.bind, Except.bind, pure, Except.pure]

theorem origProviders_congr {s t : JVal} (h : s.getF "providers" = t.getF "providers") :
    origProviders s = origProviders t := by
  rw [origProviders, origProviders, h]

/-- With a truthy `environmentDefaults`, the rewrite is the sequencing of
the three stanzas followed by deletion of the key. -/
theorem removeEnvironmentDefaults_eq {spec ed : JVal}
    (hed : spec.getF "environmentDefaults" = some ed) (ht : ed.truthy = true) :
    removeEnvironmentDefaults spec =
      (edVarfileStep spec ed) >>= (fun s₁ =>
        (edProvidersStep (edVariablesStep s₁ ed) ed) >>= (fun s₃ =>
          pure (s₃.delF "environmentDefaults"))) := by
  rw [removeEnvironmentDefaults]
  simp [hed, truthyOpt, ht]

theorem removeEnvironmentDefaults_ok_shape {spec ed spec' : JVal}
    (hed : spec.getF "environmentDefaults" = some ed) (hedt : ed.truthy = true)
    (hok : removeEnvironmentDefaults spec = .ok spec') :
    ∃ s₁ s₃, edVarfileStep spec ed = .ok s₁
      ∧ edProvidersStep (edVariablesStep s₁ ed) ed = .ok s₃
      ∧ spec' = s₃.delF "environmentDefaults" := by
  rw [removeEnvironmentDefaults_eq hed hedt] at hok
  cases h₁ : edVarfileStep spec ed with
  | error e =>
      simp only [Bind.bind, Except.bind, h₁] at hok
      exact Except.noConfusion hok
  | ok s₁ =>
      cases h₃ : edProvidersStep (edVariablesStep s₁ ed) ed with
      | error e =>
          simp only [Bind.bind, Except.bind, h₁, h₃] at hok
          exact Except.noConfusion hok
      | ok s₃ =>
          simp only [Bind.bind, Except.bind, h₁, h₃, pure, Except.pure,
            Except.ok.injEq] at hok
          exact ⟨s₁, s₃, rfl, h₃, hok.symm⟩

theorem renameEnvironments_not_arr {s : JVal}
    (h : ∀ envs, s.getF "environments" ≠ some (.arr envs)) :
    renameEnvironments s = .error .typeError := by
  rw [renameEnvironments]
  cases hv : s.getF "environments" with
  | none => rfl
  | some v =>
      cases v with
      | arr envs => exact absurd hv (h envs)
      | null => rfl
      | bool b => rfl
      | num n => rfl
      | str t => rfl
      | obj gs => rfl

theorem renameProvider_eq_pure {p : JVal} (h : p ≠ .null) :
    renameProvider p = .ok (pureRenameProvider p) := by
  have hm : getMember p "name" = .ok (p.getF "name") := by
    cases p with
    | null => exact absurd rfl h
    | bool b => rfl
    | num n => rfl
    | str s => rfl
    | arr xs => rfl
    | obj fs => rfl
  simp only [renameProvider, pureRenameProvider, hm, Bind.bind, Except.bind]
  by_cases hc : p.getF "name" = some (.str "local-openfaas")
  · simp [hc, pure, Except.pure]
  · simp [hc, pure, Except.pure]

theorem envOk_elim {env : JVal} (h : envOk env = true) :
    env ≠ .null
    ∧ (truthyOpt (env.getF "providers") = false
        ∨ ∃ ps, env.getF "providers" = some (.arr ps)
            ∧ ps.all (fun p => p != .null) = true) := by
  simp only [envOk, Bool.and_eq_true, Bool.or_eq_true, bne_iff_ne, ne_eq,
    Bool.not_eq_true] at h
  refine ⟨h.1, ?_⟩
  rcases h.2 with h₂ | h₂
  · exact Or.inl (by simpa using h₂)
  · cases hv : env.getF "providers" with
    | none => rw [hv] at h₂; exact absurd h₂ (by simp)
    | some v =>
        rw [hv] at h₂
        cases v with
        | arr ps => exact Or.inr ⟨ps, rfl, h₂⟩
        | null => exact absurd h₂ (by simp)
        | bool b => exact absurd h₂ (by simp)
        | num n => exact absurd h₂ (by simp)
        | str t => exact absurd h₂ (by simp)
        | obj gs => exact absurd h₂ (by simp)

theorem renameEnvProviders_eq_pure {env : JVal} (h : envOk env = true) :
    renameEnvProviders env = .ok (pureRenameEnv env) := by
  obtain ⟨hnn, hps⟩ := envOk_elim h
  have hm : getMember env "providers" = .ok (env.getF "providers") := by
    cases env with
    | null => exact absurd rfl hnn
    | bool b => rfl
    | num n => rfl
    | str s => rfl
    | arr xs => rfl
    | obj fs => rfl
  rcases hps with hf | ⟨ps, hv, hall⟩
  · simp only [renameEnvProviders, pureRenameEnv, hm, Bind.bind, Except.bind, hf,
      Bool.false_eq_true, if_false]
    rfl
  · have htr : truthyOpt (env.getF "providers") = true := by
      simp [hv, truthyOpt, JVal.truthy]
    have hmap : mapExcept renameProvider ps = .ok (ps.map pureRenameProvider) := by
      refine mapExcept_eq_ok_map (fun p hp => renameProvider_eq_pure ?_)
      have := (List.all_eq_true.mp hall) p hp
      simpa [bne_iff_ne] using this
    simp only [renameEnvProviders, pureRenameEnv, hm, Bind.bind, Except.bind, htr, if_true,
      hv, Option.getD_some, hmap, pure, Except.pure]
    simp [truthyOpt, JVal.truthy]

theorem typeRenamed_getF_ne (spec : JVal) (key : String) (hk : key ≠ "type") :
    (typeRenamed spec).getF key = spec.getF key := by
  rw [typeRenamed]
  by_cases hc : (spec.getF "type" == some (JVal.str "local-openfaas")) = true
  · rw [if_pos hc, getF_setF_ne _ _ _ _ hk]
  · rw [if_neg hc]

theorem typeRenamed_obj {fs : List (String × JVal)} (spec : JVal)
    (h : spec = JVal.obj fs) : ∃ gs, typeRenamed spec = JVal.obj gs := by
  subst h
  rw [typeRenamed]
  by_cases hc : ((JVal.obj fs).getF "type" == some (JVal.str "local-openfaas")) = true
  · rw [if_pos hc]
    exact setF_obj _ _ _
  · rw [if_neg hc]
    exact ⟨fs, rfl⟩

theorem typeRenamed_getF_type (spec : JVal) :
    (typeRenamed spec).getF "type"
      = (if spec.getF "type" = some (.str "local-openfaas")
         then some (.str "openfaas") else spec.getF "type") := by
  by_cases hc : spec.getF "type" = some (.str "local-openfaas")
  · obtain ⟨fs, hfs⟩ := obj_of_getF_eq_some hc
    rw [if_pos hc, typeRenamed, if_pos (by simp [hc]), getF_setF_eq _ _ hfs]
  · rw [if_neg hc, typeRenamed, if_neg (by simp [hc])]

theorem renameEnvironments_compute {spec : JVal} {envs : List JVal}
    (henv : spec.getF "environments" = some (.arr envs))
    (hall : envs.all envOk = true) :
    renameEnvironments spec
      = .ok (spec.setF "environments" (.arr (envs.map pureRenameEnv))) := by
  have hmap : mapExcept renameEnvProviders envs = .ok (envs.map pureRenameEnv) :=
    mapExcept_eq_ok_map (fun env he => renameEnvProviders_eq_pure ((List.all_eq_true.mp hall) env he))
  simp only [renameEnvironments, henv, hmap, Bind.bind, Except.bind, pure, Except.pure]

theorem renameTopProviders_falsy {spec : JVal}
    (h : truthyOpt (spec.getF "providers") = false) :
    renameTopProviders spec = .ok spec := by
  rw [renameTopProviders, if_neg (by simp [h])]
  rfl

theorem renameTopProviders_arr {spec : JVal} {qs : List JVal}
    (h : spec.getF "providers" = some (.arr qs))
    (hall : qs.all (fun p => p != .null) = true) :
    renameTopProviders spec
      = .ok (spec.setF "providers" (.arr (qs.map pureRenameProvider))) := by
  have hmap : mapExcept renameProvider qs = .ok (qs.map pureRenameProvider) := by
    refine mapExcept_eq_ok_map (fun p hp => renameProvider_eq_pure ?_)
    have := (List.all_eq_true.mp hall) p hp
    simpa [bne_iff_ne] using this
  rw [renameTopProviders, if_pos (by simp [h, truthyOpt, JVal.truthy]), h]
  simp only [Option.getD_some, hmap, Bind.bind, Except.bind, pure, Except.pure]

theorem removeLocalOpenFaas_project {spec : JVal}
    (hkind : spec.getF "kind" = some (.str "Project")) :
    removeLocalOpenFaas spec
      = (renameEnvironments (typeRenamed spec)) >>= renameTopProviders := by
  have hk : (spec.getF "kind" == some (JVal.str "Project")) = true := by simp [hkind]
  simp only [removeLocalOpenFaas, typeRenamed, hk, if_true]

theorem removeLocalOpenFaas_nonproject {spec : JVal}
    (hkind : spec.getF "kind" ≠ some (.str "Project")) :
    removeLocalOpenFaas spec = .ok (typeRenamed spec) := by
  have hk : (spec.getF "kind" == some (JVal.str "Project")) = false := by simp [hkind]
  simp only [removeLocalOpenFaas, typeRenamed, hk, Bool.false_eq_true, if_false]
  rfl

theorem applyFlatStyle_unchanged {spec : JVal}
    (hp : truthyOpt (spec.getF "project") = false)
    (hm : truthyOpt (spec.getF "module") = false) : applyFlatStyle spec = spec := by
  rw [applyFlatStyle, if_neg (by simp [hp]), if_neg (by simp [hm])]

theorem bindE_ok_inv {x : Except JSError JVal} {f : JVal → Except JSError JVal} {t : JVal}
    (h : (x >>= f) = .ok t) : ∃ u, x = .ok u ∧ f u = .ok t := by
  cases x with
  | error e => simp [Bind.bind, Except.bind] at h
  | ok u => exact ⟨u, rfl, by simpa [Bind.bind, Except.bind] using h⟩

theorem migrateSpec_ok_inv {s s' : JVal} (h : migrateSpec s = .ok s') :
    ∃ t, removeLocalOpenFaas (applyFlatStyle s) = .ok t
      ∧ removeEnvironmentDefaults t = .ok s' := by
  simp only [migrateSpec] at h
  exact bindE_ok_inv h

theorem setField_self {fs : List (String × JVal)} {key : String} {v : JVal}
    (h : lookupField fs key = some v) : setField fs key v = fs := by
  induction fs with
  | nil => simp [lookupField] at h
  | cons f fs ih =>
      obtain ⟨k, w⟩ := f
      by_cases hk : k = key
      · subst hk
        have hw : w = v := by simpa [lookupField] using h
        rw [setField, if_pos rfl, hw]
      · simp only [lookupField, if_neg hk] at h
        rw [setField, if_neg hk, ih h]

theorem setF_self {s : JVal} {key : String} {v : JVal} (h : s.getF key = some v) :
    s.setF key v = s := by
  obtain ⟨fs, hfs⟩ := obj_of_getF_eq_some h
  subst hfs
  simp only [JVal.getF] at h
  simp [JVal.setF, setField_self h]

theorem typeRenamed_id {s : JVal} (h : s.getF "type" ≠ some (.str "local-openfaas")) :
    typeRenamed s = s := by
  rw [typeRenamed, if_neg (by simp [h])]

theorem renameProvider_id {p : JVal} (hn : p ≠ .null)
    (h : p.getF "name" ≠ some (.str "local-openfaas")) : renameProvider p = .ok p := by
  have hm : getMember p "name" = .ok (p.getF "name") := by
    cases p with
    | null => exact absurd rfl hn
    | bool b => rfl
    | num n => rfl
    | str s => rfl
    | arr xs => rfl
    | obj fs => rfl
  simp only [renameProvider, hm, Bind.bind, Except.bind, if_neg h]
  rfl

theorem renameProvider_stable {p q : JVal} (h : renameProvider p = .ok q) :
    renameProvider q = .ok q := by
  have hn : p ≠ .null := by
    intro hp
    subst hp
    simp [renameProvider, getMember, Bind.bind, Except.bind] at h
  have hm : getMember p "name" = .ok (p.getF "name") := by
    cases p with
    | null => exact absurd rfl hn
    | bool b => rfl
    | num n => rfl
    | str s => rfl
    | arr xs => rfl
    | obj fs => rfl
  simp only [renameProvider, hm, Bind.bind, Except.bind] at h
  by_cases hc : p.getF "name" = some (.str "local-openfaas")
  · obtain ⟨fs, hfs⟩ := obj_of_getF_eq_some hc
    rw [if_pos hc] at h
    simp only [pure, Except.pure, Except.ok.injEq] at h
    subst h
    refine renameProvider_id (by rw [hfs]; simp [JVal.setF]) ?_
    rw [getF_setF_eq _ _ hfs]
    simp
  · rw [if_neg hc] at h
    simp only [pure, Except.pure, Except.ok.injEq] at h
    subst h
    exact renameProvider_id hn hc

theorem mapExcept_ok_inv {f : JVal → Except JSError JVal} :
    ∀ {xs ys : List JVal}, mapExcept f xs = .ok ys →
      ∀ y ∈ ys, ∃ x ∈ xs, f x = .ok y := by
  intro xs
  induction xs with
  | nil =>
      intro ys h y hy
      simp only [mapExcept, Except.ok.injEq] at h
      subst h
      simp at hy
  | cons x xs ih =>
      intro ys h y hy
      rw [mapExcept] at h
      cases hx : f x with
      | error e => rw [hx] at h; simp [Bind.bind, Except.bind] at h
      | ok x' =>
          rw [hx] at h
          cases hrest : mapExcept f xs with
          | error e =>
              rw [hrest] at h
              simp [Bind.bind, Except.bind] at h
          | ok ys' =>
              rw [hrest] at h
              simp only [Bind.bind, Except.bind, pure, Except.pure, Except.ok.injEq] at h
              subst h
              rcases List.mem_cons.mp hy with hy | hy
              · exact ⟨x, by simp, by rw [hx, hy]⟩
              · obtain ⟨x₀, hx₀, hfx₀⟩ := ih hrest y hy
                exact ⟨x₀, by simp [hx₀], hfx₀⟩

theorem mapExcept_id {f : JVal → Except JSError JVal} {xs : List JVal}
    (h : ∀ x ∈ xs, f x = .ok x) : mapExcept f xs = .ok xs := by
  have := @mapExcept_eq_ok_map f id xs (by simpa using h)
  simpa using this

theorem getMember_not_null {v : JVal} (h : v ≠ .null) (key : String) :
    getMember v key = .ok (v.getF key) := by
  cases v with
  | null => exact absurd rfl h
  | bool b => rfl
  | num n => rfl
  | str s => rfl
  | arr xs => rfl
  | obj fs => rfl

theorem renameEnvProviders_ok_inv {env u : JVal} (h : renameEnvProviders env = .ok u) :
    (env ≠ .null ∧ truthyOpt (env.getF "providers") = false ∧ u = env)
    ∨ ∃ ps ps', env.getF "providers" = some (.arr ps)
        ∧ mapExcept renameProvider ps = .ok ps'
        ∧ u = env.setF "providers" (.arr ps') := by
  have hn : env ≠ .null := by
    intro he
    subst he
    simp [renameEnvProviders, getMember, Bind.bind, Except.bind] at h
  simp only [renameEnvProviders, getMember_not_null hn, Bind.bind, Except.bind] at h
  by_cases ht : truthyOpt (env.getF "providers") = true
  · rw [if_pos ht] at h
    cases hv : env.getF "providers" with
    | none => rw [hv] at ht; simp [truthyOpt] at ht
    | some v =>
        rw [hv] at h
        simp only [Option.getD_some] at h
        cases v with
        | arr ps =>
            cases hmp : mapExcept renameProvider ps with
            | error e =>
                simp only [hmp, Bind.bind, Except.bind] at h
                exact Except.noConfusion h
            | ok ps' =>
                simp only [hmp, Bind.bind, Except.bind, pure, Except.pure,
                  Except.ok.injEq] at h
                exact Or.inr ⟨ps, ps', rfl, hmp, h.symm⟩
        | null => exact absurd h (by simp [throw, throwThe, MonadExceptOf.throw])
        | bool b => exact absurd h (by simp [throw, throwThe, MonadExceptOf.throw])
        | num n => exact absurd h (by simp [throw, throwThe, MonadExceptOf.throw])
        | str t => exact absurd h (by simp [throw, throwThe, MonadExceptOf.throw])
        | obj gs => exact absurd h (by simp [throw, throwThe, MonadExceptOf.throw])
  · rw [if_neg ht] at h
    simp only [pure, Except.pure, Except.ok.injEq] at h
    exact Or.inl ⟨hn, by simpa using ht, h.symm⟩

theorem renameEnvProviders_stable {env u : JVal} (h : renameEnvProviders env = .ok u) :
    renameEnvProviders u = .ok u := by
  rcases renameEnvProviders_ok_inv h with ⟨hn, ht, rfl⟩ | ⟨ps, ps', hv, hmp, rfl⟩
  · simp only [renameEnvProviders, getMember_not_null hn, Bind.bind, Except.bind]
    rw [if_neg (by simp [ht])]
    rfl
  · obtain ⟨fs, hfs⟩ := obj_of_getF_eq_some hv
    obtain ⟨gs, hgs⟩ : ∃ gs, env.setF "providers" (.arr ps') = JVal.obj gs := by
      rw [hfs]
      exact setF_obj _ _ _
    have hnn : env.setF "providers" (.arr ps') ≠ .null := by
      rw [hgs]
      exact fun hh => JVal.noConfusion hh
    have hup : (env.setF "providers" (.arr ps')).getF "providers" = some (.arr ps') :=
      getF_setF_eq _ _ hfs
    have hmap : mapExcept renameProvider ps' = .ok ps' :=
      mapExcept_id (fun p' hp' => by
        obtain ⟨p, _, hfp⟩ := mapExcept_ok_inv hmp p' hp'
        exact renameProvider_stable hfp)
    simp only [renameEnvProviders, getMember_not_null hnn, Bind.bind, Except.bind, hup,
      Option.getD_some, if_pos (by simp [truthyOpt, JVal.truthy] :
        truthyOpt (some (JVal.arr ps')) = true), hmap, pure, Except.pure, Except.ok.injEq]
    exact setF_self hup

theorem renameEnvironments_ok_inv {s u : JVal} (h : renameEnvironments s = .ok u) :
    ∃ envs envs', s.getF "environments" = some (.arr envs)
      ∧ mapExcept renameEnvProviders envs = .ok envs'
      ∧ u = s.setF "environments" (.arr envs') := by
  rw [renameEnvironments] at h
  cases hv : s.getF "environments" with
  | none =>
      rw [hv] at h
      exact absurd h (by simp [throw, throwThe, MonadExceptOf.throw])
  | some v =>
      rw [hv] at h
      cases v with
      | arr envs =>
          cases hmp : mapExcept renameEnvProviders envs with
          | error e =>
              simp only [hmp, Bind.bind, Except.bind] at h
              exact Except.noConfusion h
          | ok envs' =>
              simp only [hmp, Bind.bind, Except.bind, pure, Except.pure,
                Except.ok.injEq] at h
              exact ⟨envs, envs', rfl, hmp, h.symm⟩
      | null => exact absurd h (by simp [throw, throwThe, MonadExceptOf.throw])
      | bool b => exact absurd h (by simp [throw, throwThe, MonadExceptOf.throw])
      | num n => exact absurd h (by simp [throw, throwThe, MonadExceptOf.throw])
      | str t => exact absurd h (by simp [throw, throwThe, MonadExceptOf.throw])
      | obj gs => exact absurd h (by simp [throw, throwThe, MonadExceptOf.throw])

theorem renameTopProviders_ok_inv {s u : JVal} (h : renameTopProviders s = .ok u) :
    (truthyOpt (s.getF "providers") = false ∧ u = s)
    ∨ ∃ ps ps', s.getF "providers" = some (.arr ps)
        ∧ mapExcept renameProvider ps = .ok ps'
        ∧ u = s.setF "providers" (.arr ps') := by
  rw [renameTopProviders] at h
  by_cases ht : truthyOpt (s.getF "providers") = true
  · rw [if_pos ht] at h
    cases hv : s.getF "providers" with
    | none => rw [hv] at ht; simp [truthyOpt] at ht
    | some v =>
        rw [hv] at h
        simp only [Option.getD_some] at h
        cases v with
        | arr ps =>
            cases hmp : mapExcept renameProvider ps with
            | error e =>
                simp only [hmp, Bind.bind, Except.bind] at h
                exact Except.noConfusion h
            | ok ps' =>
                simp only [hmp, Bind.bind, Except.bind, pure, Except.pure,
                  Except.ok.injEq] at h
                exact Or.inr ⟨ps, ps', rfl, hmp, h.symm⟩
        | null => exact absurd h (by simp [throw, throwThe, MonadExceptOf.throw])
        | bool b => exact absurd h (by simp [throw, throwThe, MonadExceptOf.throw])
        | num n => exact absurd h (by simp [throw, throwThe, MonadExceptOf.throw])
        | str t => exact absurd h (by simp [throw, throwThe, MonadExceptOf.throw])
        | obj gs => exact absurd h (by simp [throw, throwThe, MonadExceptOf.throw])
  · rw [if_neg ht] at h
    simp only [pure, Except.pure, Except.ok.injEq] at h
    exact Or.inl ⟨by simpa using ht, h.symm⟩

theorem removeLocalOpenFaas_ok_inv {spec t : JVal} (h : removeLocalOpenFaas spec = .ok t) :
    (spec.getF "kind" ≠ some (.str "Project") ∧ t = typeRenamed spec)
    ∨ (spec.getF "kind" = some (.str "Project")
        ∧ ∃ u, renameEnvironments (typeRenamed spec) = .ok u
            ∧ renameTopProviders u = .ok t) := by
  by_cases hk : spec.getF "kind" = some (.str "Project")
  · rw [removeLocalOpenFaas_project hk] at h
    exact Or.inr ⟨hk, bindE_ok_inv h⟩
  · rw [removeLocalOpenFaas_nonproject hk] at h
    exact Or.inl ⟨hk, (Except.ok.inj h).symm⟩

theorem removeLocalOpenFaas_ok_getF {spec t : JVal} (key : String)
    (h1 : key ≠ "type") (h2 : key ≠ "environments") (h3 : key ≠ "providers")
    (h : removeLocalOpenFaas spec = .ok t) : t.getF key = spec.getF key := by
  rcases removeLocalOpenFaas_ok_inv h with ⟨_, rfl⟩ | ⟨hk, u, hre, htp⟩
  · exact typeRenamed_getF_ne spec key h1
  · obtain ⟨envs, envs', hv, hmp, rfl⟩ := renameEnvironments_ok_inv hre
    rcases renameTopProviders_ok_inv htp with ⟨_, rfl⟩ | ⟨ps, ps', hv2, hmp2, rfl⟩
    · rw [getF_setF_ne _ _ _ _ h2, typeRenamed_getF_ne spec key h1]
    · rw [getF_setF_ne _ _ _ _ h3, getF_setF_ne _ _ _ _ h2,
        typeRenamed_getF_ne spec key h1]

theorem removeLocalOpenFaas_ok_type_ne {spec t : JVal}
    (h : removeLocalOpenFaas spec = .ok t) :
    t.getF "type" ≠ some (.str "local-openfaas") := by
  have htype : t.getF "type" = (typeRenamed spec).getF "type" := by
    rcases removeLocalOpenFaas_ok_inv h with ⟨_, rfl⟩ | ⟨hk, u, hre, htp⟩
    · rfl
    · obtain ⟨envs, envs', hv, hmp, rfl⟩ := renameEnvironments_ok_inv hre
      rcases renameTopProviders_ok_inv htp with ⟨_, rfl⟩ | ⟨ps, ps', hv2, hmp2, rfl⟩
      · exact getF_setF_ne _ _ _ _ (by decide)
      · rw [getF_setF_ne _ _ _ _ (by decide), getF_setF_ne _ _ _ _ (by decide)]
  rw [htype, typeRenamed_getF_type]
  by_cases hc : spec.getF "type" = some (.str "local-openfaas")
  · simp [hc]
  · rw [if_neg hc]
    exact hc

theorem removeEnvironmentDefaults_ok_cases {t s' : JVal}
    (h : removeEnvironmentDefaults t = .ok s') :
    (truthyOpt (t.getF "environmentDefaults") = false ∧ s' = t)
    ∨ ∃ ed s₁ s₃, t.getF "environmentDefaults" = some ed ∧ ed.truthy = true
        ∧ edVarfileStep t ed = .ok s₁
        ∧ edProvidersStep (edVariablesStep s₁ ed) ed = .ok s₃
        ∧ s' = s₃.delF "environmentDefaults" := by
  by_cases hc : truthyOpt (t.getF "environmentDefaults") = true
  · cases hv : t.getF "environmentDefaults" with
    | none => rw [hv] at hc; simp [truthyOpt] at hc
    | some ed =>
        have hedt : ed.truthy = true := by
          rw [hv] at hc
          simpa [truthyOpt] using hc
        obtain ⟨s₁, s₃, h₁, h₃, hsp⟩ := removeEnvironmentDefaults_ok_shape hv hedt h
        exact Or.inr ⟨ed, s₁, s₃, rfl, hedt, h₁, h₃, hsp⟩
  · rw [removeEnvironmentDefaults] at h
    rw [if_neg hc] at h
    simp only [pure, Except.pure, Except.ok.injEq] at h
    exact Or.inl ⟨Bool.not_eq_true _ ▸ eq_false_of_ne_true hc, h.symm⟩

theorem removeEnvironmentDefaults_ok_getF_ne {t s' : JVal} (key : String)
    (h1 : key ≠ "varfile") (h2 : key ≠ "variables") (h3 : key ≠ "providers")
    (h4 : key ≠ "environmentDefaults")
    (h : removeEnvironmentDefaults t = .ok s') : s'.getF key = t.getF key := by
  rcases removeEnvironmentDefaults_ok_cases h with ⟨_, rfl⟩ | ⟨ed, s₁, s₃, hv, hedt, h₁, h₃, rfl⟩
  · rfl
  · rw [getF_delF_ne _ _ _ h4, edProvidersStep_ok_getF_ne _ h3 h₃,
      edVariablesStep_getF_ne _ _ _ h2, edVarfileStep_ok_getF_ne _ h1 h₁]

theorem removeEnvironmentDefaults_ok_ed_falsy {t s' : JVal}
    (h : removeEnvironmentDefaults t = .ok s') :
    truthyOpt (s'.getF "environmentDefaults") = false := by
  rcases removeEnvironmentDefaults_ok_cases h with ⟨hc, rfl⟩ | ⟨ed, s₁, s₃, hv, hedt, h₁, h₃, rfl⟩
  · exact hc
  · simp [getF_delF_eq, truthyOpt]

theorem removeEnvironmentDefaults_ok_providers {t s' : JVal}
    (h : removeEnvironmentDefaults t = .ok s') :
    s'.getF "providers" = t.getF "providers"
    ∨ ∃ l, s'.getF "providers" = some (.arr l) := by
  rcases removeEnvironmentDefaults_ok_cases h with ⟨_, rfl⟩ | ⟨ed, s₁, s₃, hv, hedt, h₁, h₃, rfl⟩
  · exact Or.inl rfl
  · rw [edProvidersStep] at h₃
    by_cases hp : truthyOpt (ed.getF "providers") = true
    · rw [if_pos hp] at h₃
      cases ha : arraySpread (jsOr ((edVariablesStep s₁ ed).getF "providers") (.arr [])) with
      | error e =>
          simp only [ha, Bind.bind, Except.bind] at h₃
          exact Except.noConfusion h₃
      | ok la =>
          cases hb : arraySpread ((ed.getF "providers").getD .null) with
          | error e =>
              simp only [ha, hb, Bind.bind, Except.bind] at h₃
              exact Except.noConfusion h₃
          | ok lb =>
              simp only [ha, hb, Bind.bind, Except.bind, pure, Except.pure,
                Except.ok.injEq] at h₃
              obtain ⟨fs, hfs⟩ := obj_of_getF_eq_some hv
              obtain ⟨gs₁, hgs₁⟩ := edVarfileStep_obj t ed hfs h₁
              obtain ⟨gs₂, hgs₂⟩ := edVariablesStep_obj s₁ ed hgs₁
              refine Or.inr ⟨la ++ lb, ?_⟩
              rw [getF_delF_ne _ _ _ (by decide), ← h₃, getF_setF_eq _ _ hgs₂]
    · rw [if_neg hp] at h₃
      simp only [pure, Except.pure, Except.ok.injEq] at h₃
      refine Or.inl ?_
      rw [getF_delF_ne _ _ _ (by decide), ← h₃,
        edVariablesStep_getF_ne _ _ _ (by decide), edVarfileStep_ok_getF_ne _ (by decide) h₁]

/-! ## Claim theorems -/

/-- C3: the flat-style rewrite maps a spec with a `project` wrapper to an
object holding kind `"Project"` plus all the wrapper's fields hoisted to
top level, a spec with a `module` wrapper (and no truthy `project` key) to
kind `"Module"` plus the wrapper's fields, and leaves every other spec
unchanged. -/
theorem applyFlatStyle_spec (spec : JVal) :
    (∀ pf, spec.getF "project" = some (.obj pf) → keysDistinct pf = true →
      ∀ key, (applyFlatStyle spec).getF key =
        oalt (lookupField pf key) (if key = "kind" then some (.str "Project") else none))
    ∧ (∀ mf, truthyOpt (spec.getF "project") = false →
        spec.getF "module" = some (.obj mf) → keysDistinct mf = true →
        ∀ key, (applyFlatStyle spec).getF key =
          oalt (lookupField mf key) (if key = "kind" then some (.str "Module") else none))
    ∧ (truthyOpt (spec.getF "project") = false → truthyOpt (spec.getF "module") = false →
        applyFlatStyle spec = spec) := by
  refine ⟨?_, ?_, ?_⟩
  · intro pf hp hd key
    rw [applyFlatStyle, if_pos (by simp [hp, truthyOpt, JVal.truthy]), hp]
    simp only [Option.getD_some, spreadFields]
    rw [getF_obj, lookupField_insertAll, lastVal_eq_lookupField _ _ hd]
    by_cases hk : key = "kind"
    · simp [lookupField, hk]
    · simp [lookupField, hk, Ne.symm hk]
  · intro mf hp hm hd key
    rw [applyFlatStyle, if_neg (by simp [hp]), if_pos (by simp [hm, truthyOpt, JVal.truthy]), hm]
    simp only [Option.getD_some, spreadFields]
    rw [getF_obj, lookupField_insertAll, lastVal_eq_lookupField _ _ hd]
    by_cases hk : key = "kind"
    · simp [lookupField, hk]
    · simp [lookupField, hk, Ne.symm hk]
  · intro hp hm
    rw [applyFlatStyle, if_neg (by simp [hp]), if_neg (by simp [hm])]

/-- C3 witness: the flat-style characterization applied to a concrete
wrapped project spec and key. -/
theorem applyFlatStyle_spec_witness :
    (applyFlatStyle (.obj [("project", .obj [("name", .str "p")])])).getF "name"
      = some (.str "p") := by
  have h := (applyFlatStyle_spec (.obj [("project", .obj [("name", .str "p")])])).1
    [("name", .str "p")] (by decide) (by decide) "name"
  rw [h]
  decide

/-- C10: a spec whose flattened form has kind `"Project"` but no
`environments` array makes the legacy-provider rename access the missing
field's entries, so the whole migration fails with a runtime `TypeError`
rather than completing or raising a `ConfigurationError`. -/
theorem project_missing_environments_type_error (spec : JVal)
    (hkind : (applyFlatStyle spec).getF "kind" = some (.str "Project"))
    (henv : ∀ envs, (applyFlatStyle spec).getF "environments" ≠ some (.arr envs)) :
    migrateSpec spec = .error .typeError := by
  obtain ⟨fs, hfs⟩ := obj_of_getF_eq_some hkind
  have hk' : ((applyFlatStyle spec).getF "kind" == some (JVal.str "Project")) = true := by
    simp [hkind]
  have hrm : removeLocalOpenFaas (applyFlatStyle spec) = .error .typeError := by
    by_cases ht : (applyFlatStyle spec).getF "type" = some (.str "local-openfaas")
    · have ht' : ((applyFlatStyle spec).getF "type"
          == some (JVal.str "local-openfaas")) = true := by simp [ht]
      have henv' : ∀ envs,
          ((applyFlatStyle spec).setF "type" (.str "openfaas")).getF "environments"
            ≠ some (.arr envs) := by
        intro envs
        rw [hfs, getF_setF, if_neg (by decide : ¬("environments" = "type")), ← hfs]
        exact henv envs
      simp only [removeLocalOpenFaas, ht', hk', if_true]
      rw [renameEnvironments_not_arr henv']
      rfl
    · have ht' : ((applyFlatStyle spec).getF "type"
          == some (JVal.str "local-openfaas")) = false := by simp [ht]
      simp only [removeLocalOpenFaas, ht', hk', if_true, Bool.false_eq_true, if_false]
      rw [renameEnvironments_not_arr henv]
      rfl
  simp only [migrateSpec, hrm]
  rfl

/-- C10 witness: a concrete flattened Project spec with no `environments`
field fails the migration with a `TypeError`. -/
theorem project_missing_environments_type_error_witness :
    migrateSpec (.obj [("project", .obj [("name", .str "x")])]) = .error .typeError := by
  refine project_missing_environments_type_error (.obj [("project", .obj [("name", .str "x")])])
    (by decide) ?_
  intro envs h
  rw [(by decide : (applyFlatStyle (.obj [("project", .obj [("name", .str "x")])])).getF
    "environments" = (none : Option JVal))] at h
  exact Option.noConfusion h

/-- C8: the any-event listener tracks a task event exactly when the event
name is one of `taskPending`, `taskProcessing`, `taskComplete`,
`taskError`, and tracks nothing for any other event name. -/
theorem processEvent_dispatch (hash : String → String) (basic : AnalyticsEventProperties)
    (name : String) (payload : TaskEventPayload) :
    processEvent hash basic name payload =
      (if name = "taskPending" ∨ name = "taskProcessing" ∨ name = "taskComplete"
          ∨ name = "taskError"
       then some (trackTaskProperties hash basic payload.batchId payload.name payload.taskType name)
       else none) := by
  by_cases h : name = "taskPending" ∨ name = "taskProcessing" ∨ name = "taskComplete"
      ∨ name = "taskError"
  · rw [if_pos h, processEvent,
      if_pos (by simp [isSupportedEvent, supportedEventsKeys, List.contains]; tauto)]
  · rw [if_neg h, processEvent,
      if_neg (by simp [isSupportedEvent, supportedEventsKeys, List.contains]; tauto)]

/-- C7: task telemetry carries only the hash of the task name (the
properties depend on the task name through the hash alone), and the
project identifier is either the hash of the repository origin name or the
constant `"unset"`, never the origin name in the clear (it depends on the
origin only through the hash). -/
theorem task_telemetry_anonymized (hash : String → String) :
    (∀ basic batchId taskName taskType taskStatus,
        (trackTaskProperties hash basic batchId taskName taskType taskStatus).taskName
          = hash taskName)
    ∧ (∀ basic batchId taskType taskStatus n₁ n₂, hash n₁ = hash n₂ →
        trackTaskProperties hash basic batchId n₁ taskType taskStatus
          = trackTaskProperties hash basic batchId n₂ taskType taskStatus)
    ∧ (∀ originName, initializeProjectId hash originName = "unset"
        ∨ ∃ s, originName = some s ∧ s ≠ ""
            ∧ initializeProjectId hash originName = hash s)
    ∧ (∀ s₁ s₂, s₁ ≠ "" → s₂ ≠ "" → hash s₁ = hash s₂ →
        initializeProjectId hash (some s₁) = initializeProjectId hash (some s₂)) := by
  refine ⟨?_, ?_, ?_, ?_⟩
  · intro basic batchId taskName taskType taskStatus
    rfl
  · intro basic batchId taskType taskStatus n₁ n₂ h
    simp [trackTaskProperties, h]
  · intro originName
    cases originName with
    | none => left; rfl
    | some s =>
        by_cases hs : s = ""
        · left; simp [initializeProjectId, hs]
        · right; exact ⟨s, rfl, hs, by simp [initializeProjectId, hs]⟩
  · intro s₁ s₂ h₁ h₂ hh
    simp [initializeProjectId, h₁, h₂, hh]

/-- C7 witness: the anonymization theorem applied at a concrete hash,
task name and origin name. -/
theorem task_telemetry_anonymized_witness :
    (trackTaskProperties (fun s => String.append "#" s) sampleBasicProperties
        "b" "task.db" "container" "taskComplete").taskName = "#task.db"
    ∧ initializeProjectId (fun s => String.append "#" s) (some "origin")
        = initializeProjectId (fun s => String.append "#" s) (some "origin") := by
  constructor
  · exact (task_telemetry_anonymized (fun s => String.append "#" s)).1
      sampleBasicProperties "b" "task.db" "container" "taskComplete"
  · exact (task_telemetry_anonymized (fun s => String.append "#" s)).2.2.2
      "origin" "origin" (by decide) (by decide) rfl

/-- C1: for a spec whose `environmentDefaults` carries a truthy `varfile`:
if the spec also has a truthy top-level `varfile`, the rewrite fails with a
`ConfigurationError` (no merge result is produced); otherwise it never
raises a `ConfigurationError`, and any successful result carries
`environmentDefaults.varfile` as its top-level `varfile`. -/
theorem varfile_migration (spec ed vf : JVal)
    (hed : spec.getF "environmentDefaults" = some ed)
    (hvf : ed.getF "varfile" = some vf)
    (hvt : vf.truthy = true) :
    (truthyOpt (spec.getF "varfile") = true →
        removeEnvironmentDefaults spec = .error .configurationError)
    ∧ (truthyOpt (spec.getF "varfile") = false →
        removeEnvironmentDefaults spec ≠ .error .configurationError
        ∧ ∀ spec', removeEnvironmentDefaults spec = .ok spec' →
            spec'.getF "varfile" = some vf) := by
  obtain ⟨fs, hfs⟩ := obj_of_getF_eq_some hed
  obtain ⟨eds, heds⟩ := obj_of_getF_eq_some hvf
  have hedt : ed.truthy = true := by rw [heds]; rfl
  have hre := removeEnvironmentDefaults_eq hed hedt
  have hvt' : truthyOpt (ed.getF "varfile") = true := by simp [hvf, truthyOpt, hvt]
  constructor
  · intro htv
    rw [hre, edVarfileStep, if_pos hvt', if_pos htv]
    rfl
  · intro htv
    have hstep : edVarfileStep spec ed = .ok (spec.setF "varfile" vf) := by
      rw [edVarfileStep, if_pos hvt', if_neg (by simp [htv]), hvf]
      rfl
    rw [hre, hstep]
    have hs₂varfile : (edVariablesStep (spec.setF "varfile" vf) ed).getF "varfile"
        = some vf := by
      rw [edVariablesStep_getF_ne _ _ _ (by decide), getF_setF_eq _ _ hfs]
    constructor
    · intro hcontr
      cases hps : edProvidersStep (edVariablesStep (spec.setF "varfile" vf) ed) ed with
      | error e =>
          simp only [Bind.bind, Except.bind, hps, Except.error.injEq] at hcontr
          exact edProvidersStep_no_configError _ _ (by rw [hps, hcontr])
      | ok s₃ =>
          simp only [Bind.bind, Except.bind, hps, pure, Except.pure] at hcontr
          exact Except.noConfusion hcontr
    · intro spec' hok
      cases hps : edProvidersStep (edVariablesStep (spec.setF "varfile" vf) ed) ed with
      | error e =>
          simp only [Bind.bind, Except.bind, hps] at hok
          exact Except.noConfusion hok
      | ok s₃ =>
          simp only [Bind.bind, Except.bind, hps, pure, Except.pure,
            Except.ok.injEq] at hok
          rw [← hok, getF_delF_ne _ _ _ (by decide),
            edProvidersStep_ok_getF_ne _ (by decide) hps, hs₂varfile]

/-- C1 witness: a concrete conflict raises the configuration error and a
concrete conflict-free spec ends with the moved `varfile`. -/
theorem varfile_migration_witness :
    removeEnvironmentDefaults (.obj [("varfile", .str "a"),
        ("environmentDefaults", .obj [("varfile", .str "b")])]) = .error .configurationError
    ∧ (JVal.obj [("varfile", .str "b")]).getF "varfile" = some (.str "b") := by
  constructor
  · exact (varfile_migration (.obj [("varfile", .str "a"),
        ("environmentDefaults", .obj [("varfile", .str "b")])])
      (.obj [("varfile", .str "b")]) (.str "b") (by decide) (by decide) (by decide)).1 (by decide)
  · exact ((varfile_migration (.obj [("environmentDefaults", .obj [("varfile", .str "b")])])
      (.obj [("varfile", .str "b")]) (.str "b") (by decide) (by decide) (by decide)).2
      (by decide)).2 (.obj [("varfile", .str "b")]) (by decide)

/-- C2: with `environmentDefaults.providers` a list and no varfile
conflict, the rewrite succeeds and sets the top-level providers to the
original top-level providers (empty when absent or falsy) concatenated
with `environmentDefaults.providers`, in that order — so duplicate
provider names survive unchecked. -/
theorem providers_merge (spec ed : JVal) (ps : List JVal)
    (hed : spec.getF "environmentDefaults" = some ed)
    (hps : ed.getF "providers" = some (.arr ps))
    (hq : (∃ qs, spec.getF "providers" = some (.arr qs))
      ∨ truthyOpt (spec.getF "providers") = false)
    (hnc : ¬(truthyOpt (ed.getF "varfile") = true
      ∧ truthyOpt (spec.getF "varfile") = true)) :
    ∃ spec', removeEnvironmentDefaults spec = .ok spec'
      ∧ spec'.getF "providers" = some (.arr (origProviders spec ++ ps)) := by
  obtain ⟨fs, hfs⟩ := obj_of_getF_eq_some hed
  obtain ⟨eds, heds⟩ := obj_of_getF_eq_some hps
  have hedt : ed.truthy = true := by rw [heds]; rfl
  obtain ⟨s₁, h₁⟩ := edVarfileStep_ok_of_no_conflict hnc
  obtain ⟨gs₁, hgs₁⟩ := edVarfileStep_obj spec ed hfs h₁
  have h₁p : s₁.getF "providers" = spec.getF "providers" :=
    edVarfileStep_ok_getF_ne _ (by decide) h₁
  have h₂p : (edVariablesStep s₁ ed).getF "providers" = spec.getF "providers" := by
    rw [edVariablesStep_getF_ne _ _ _ (by decide), h₁p]
  obtain ⟨gs₂, hgs₂⟩ := edVariablesStep_obj s₁ ed hgs₁
  have h₃ : edProvidersStep (edVariablesStep s₁ ed) ed
      = .ok ((edVariablesStep s₁ ed).setF "providers"
          (.arr (origProviders (edVariablesStep s₁ ed) ++ ps))) :=
    edProvidersStep_compute (by rw [h₂p]; exact hq) hps
  have horig : origProviders (edVariablesStep s₁ ed) = origProviders spec :=
    origProviders_congr h₂p
  refine ⟨((edVariablesStep s₁ ed).setF "providers"
      (.arr (origProviders spec ++ ps))).delF "environmentDefaults", ?_, ?_⟩
  · rw [removeEnvironmentDefaults_eq hed hedt]
    simp only [Bind.bind, Except.bind, h₁, h₃, horig, pure, Except.pure]
  · rw [getF_delF_ne _ _ _ (by decide), getF_setF_eq _ _ hgs₂]

/-- C2 witness: merging a concrete spec whose top-level and
`environmentDefaults` providers both name `"foo"` keeps both copies, in
order, with no error. -/
theorem providers_merge_witness :
    removeEnvironmentDefaults (.obj [("providers", .arr [.obj [("name", .str "foo")]]),
        ("environmentDefaults", .obj [("providers",
          .arr [.obj [("name", .str "foo")], .obj [("name", .str "bar")]])])])
      = .ok (.obj [("providers", .arr [.obj [("name", .str "foo")],
          .obj [("name", .str "foo")], .obj [("name", .str "bar")]])]) := by
  obtain ⟨spec', hok, hprov⟩ := providers_merge
    (.obj [("providers", .arr [.obj [("name", .str "foo")]]),
      ("environmentDefaults", .obj [("providers",
        .arr [.obj [("name", .str "foo")], .obj [("name", .str "bar")]])])])
    (.obj [("providers", .arr [.obj [("name", .str "foo")], .obj [("name", .str "bar")]])])
    [.obj [("name", .str "foo")], .obj [("name", .str "bar")]]
    (by decide) (by decide) (Or.inl ⟨[.obj [("name", .str "foo")]], by decide⟩) (by decide)
  rw [hok]
  have : spec' = .obj [("providers", .arr [.obj [("name", .str "foo")],
      .obj [("name", .str "foo")], .obj [("name", .str "bar")]])] := by
    have h₂ : removeEnvironmentDefaults (.obj [("providers",
        .arr [.obj [("name", .str "foo")]]), ("environmentDefaults", .obj [("providers",
        .arr [.obj [("name", .str "foo")], .obj [("name", .str "bar")]])])])
        = .ok (.obj [("providers", .arr [.obj [("name", .str "foo")],
          .obj [("name", .str "foo")], .obj [("name", .str "bar")]])]) := by decide
    rw [h₂] at hok
    exact (Except.ok.inj hok).symm
  rw [this]

/-- C5: a spec with a truthy `environmentDefaults` section that migrates
successfully loses the `environmentDefaults` key, and when
`environmentDefaults.variables` was present the resulting top-level
`variables` is the original top-level variables (empty when absent or
falsy) merged with `environmentDefaults.variables`, the latter winning on
shared keys. -/
theorem environmentDefaults_removal (spec ed : JVal)
    (hed : spec.getF "environmentDefaults" = some ed)
    (hedt : ed.truthy = true) :
    (∀ spec', removeEnvironmentDefaults spec = .ok spec' →
        spec'.getF "environmentDefaults" = none)
    ∧ (∀ evs bvs spec', ed.getF "variables" = some (.obj evs) →
        keysDistinct evs = true →
        (spec.getF "variables" = some (.obj bvs)
          ∨ (truthyOpt (spec.getF "variables") = false ∧ bvs = [])) →
        keysDistinct bvs = true →
        removeEnvironmentDefaults spec = .ok spec' →
        ∃ ms, spec'.getF "variables" = some (.obj ms)
          ∧ ∀ key, lookupField ms key
              = oalt (lookupField evs key) (lookupField bvs key)) := by
  obtain ⟨fs, hfs⟩ := obj_of_getF_eq_some hed
  constructor
  · intro spec' hok
    obtain ⟨s₁, s₃, h₁, h₃, hsp⟩ := removeEnvironmentDefaults_ok_shape hed hedt hok
    rw [hsp, getF_delF_eq]
  · intro evs bvs spec' hev hde hb hdb hok
    obtain ⟨s₁, s₃, h₁, h₃, hsp⟩ := removeEnvironmentDefaults_ok_shape hed hedt hok
    obtain ⟨gs₁, hgs₁⟩ := edVarfileStep_obj spec ed hfs h₁
    have h₁v : s₁.getF "variables" = spec.getF "variables" :=
      edVarfileStep_ok_getF_ne _ (by decide) h₁
    have h₂eq : edVariablesStep s₁ ed
        = s₁.setF "variables" (.obj (insertAll (insertAll [] bvs) evs)) := by
      rw [edVariablesStep, if_pos (by simp [hev, truthyOpt, JVal.truthy]), hev]
      rcases hb with hb | ⟨hb, hbnil⟩
      · rw [h₁v, hb]
        have hj : jsOr (some (JVal.obj bvs)) (.obj []) = .obj bvs := by
          simp [jsOr, JVal.truthy]
        rw [hj]
        rfl
      · subst hbnil
        rw [h₁v]
        cases hgv : spec.getF "variables" with
        | none => rfl
        | some v =>
            rw [hgv] at hb
            simp only [truthyOpt] at hb
            have hj : jsOr (some v) (.obj []) = .obj [] := by simp [jsOr, hb]
            rw [hj]
            rfl
    have h₂v : (edVariablesStep s₁ ed).getF "variables"
        = some (.obj (insertAll (insertAll [] bvs) evs)) := by
      rw [h₂eq, getF_setF_eq _ _ hgs₁]
    have h₃v : s₃.getF "variables" = some (.obj (insertAll (insertAll [] bvs) evs)) := by
      rw [edProvidersStep_ok_getF_ne _ (by decide) h₃, h₂v]
    refine ⟨insertAll (insertAll [] bvs) evs, ?_, ?_⟩
    · rw [hsp, getF_delF_ne _ _ _ (by decide), h₃v]
    · intro key
      rw [lookupField_insertAll, lookupField_insertAll, lastVal_eq_lookupField _ _ hde,
        lastVal_eq_lookupField _ _ hdb]
      simp [lookupField, oalt_none_right]

/-- C5 witness: a concrete merge where `environmentDefaults.variables`
overrides a shared key, the top-level-only key survives, and the
`environmentDefaults` key is gone. -/
theorem environmentDefaults_removal_witness :
    (JVal.obj [("variables", .obj [("y", .num 2), ("z", .num 3), ("x", .num 1)]),
        ("varfile", .str "b")]).getF "environmentDefaults" = none
    ∧ lookupField [("y", .num 2), ("z", .num 3), ("x", .num 1)] "y"
        = oalt (lookupField [("x", .num 1), ("y", .num 2)] "y")
            (lookupField [("y", .num 9), ("z", .num 3)] "y") := by
  have h := environmentDefaults_removal
    (.obj [("environmentDefaults", .obj [("varfile", .str "b"),
        ("variables", .obj [("x", .num 1), ("y", .num 2)])]),
      ("variables", .obj [("y", .num 9), ("z", .num 3)])])
    (.obj [("varfile", .str "b"), ("variables", .obj [("x", .num 1), ("y", .num 2)])])
    (by decide) (by decide)
  constructor
  · exact h.1 (.obj [("variables", .obj [("y", .num 2), ("z", .num 3), ("x", .num 1)]),
        ("varfile", .str "b")]) (by decide)
  · obtain ⟨ms, hms, hkey⟩ := h.2 [("x", .num 1), ("y", .num 2)] [("y", .num 9), ("z", .num 3)]
      (.obj [("variables", .obj [("y", .num 2), ("z", .num 3), ("x", .num 1)]),
        ("varfile", .str "b")])
      (by decide) (by decide) (Or.inl (by decide)) (by decide) (by decide)
    have hm : ms = [("y", .num 2), ("z", .num 3), ("x", .num 1)] := by
      have : (JVal.obj [("variables", .obj [("y", .num 2), ("z", .num 3), ("x", .num 1)]),
          ("varfile", .str "b")]).getF "variables"
          = some (.obj [("y", .num 2), ("z", .num 3), ("x", .num 1)]) := by decide
      rw [this] at hms
      exact (JVal.obj.inj (Option.some.inj hms)).symm
    rw [← hm]
    exact hkey "y"

/-- C6 (code bug): `parse(path).root` is truthy for every absolute path,
not only the file-system root, so `findRoot` started at the absolute
directory `/a/b` stops immediately and returns `null` even though its
parent `/a` — one step up the chain, as witnessed by `resolveUp` — holds a
project-level config. -/
theorem findRoot_ignores_ancestors :
    findRoot
        (fun p => if p = .abs ["a"] then some [JVal.obj [("kind", .str "Project")]]
          else some []) [] (.abs ["a", "b"]) = none
    ∧ isProjectRoot
        (fun p => if p = .abs ["a"] then some [JVal.obj [("kind", .str "Project")]]
          else some []) (.abs ["a"]) = true
    ∧ resolveUp [] (.abs ["a", "b"]) = .abs ["a"] := by
  refine ⟨?_, by decide, by decide⟩
  have h1 : isProjectRoot
      (fun p => if p = .abs ["a"] then some [JVal.obj [("kind", .str "Project")]]
        else some []) (.abs ["a", "b"]) = false := by decide
  rw [findRoot, if_neg (by simp [h1]), dif_pos (by rfl : parseRootTruthy (.abs ["a", "b"]) = true)]

/-- C4: the legacy-provider rename turns a `"local-openfaas"` type into
`"openfaas"` and leaves every other field alone; on a spec of kind
`"Project"` (with a well-formed `environments` array and top-level
`providers`) it additionally renames each `"local-openfaas"` provider in
every environment's providers list and in the top-level providers list,
leaving all other fields unchanged. -/
theorem removeLocalOpenFaas_spec (spec : JVal) :
    (spec.getF "kind" ≠ some (.str "Project") →
        removeLocalOpenFaas spec = .ok (typeRenamed spec))
    ∧ (typeRenamed spec).getF "type"
        = (if spec.getF "type" = some (.str "local-openfaas")
           then some (.str "openfaas") else spec.getF "type")
    ∧ (∀ key, key ≠ "type" → (typeRenamed spec).getF key = spec.getF key)
    ∧ (spec.getF "kind" = some (.str "Project") →
        ∀ envs, spec.getF "environments" = some (.arr envs) →
        envs.all envOk = true → topProvidersOk spec = true →
        ∃ spec', removeLocalOpenFaas spec = .ok spec'
          ∧ spec'.getF "environments" = some (.arr (envs.map pureRenameEnv))
          ∧ spec'.getF "type" = (typeRenamed spec).getF "type"
          ∧ (∀ qs, spec.getF "providers" = some (.arr qs) →
              spec'.getF "providers" = some (.arr (qs.map pureRenameProvider)))
          ∧ (truthyOpt (spec.getF "providers") = false →
              spec'.getF "providers" = spec.getF "providers")
          ∧ (∀ key, key ≠ "type" → key ≠ "environments" → key ≠ "providers" →
              spec'.getF key = spec.getF key)) := by
  refine ⟨removeLocalOpenFaas_nonproject, typeRenamed_getF_type spec,
    typeRenamed_getF_ne spec, ?_⟩
  intro hkind envs henv hall htop
  obtain ⟨fs, hfs⟩ := obj_of_getF_eq_some hkind
  obtain ⟨gs₀, hgs₀⟩ := typeRenamed_obj spec hfs
  have h₀env : (typeRenamed spec).getF "environments" = some (.arr envs) := by
    rw [typeRenamed_getF_ne spec _ (by decide), henv]
  have h₀prov : (typeRenamed spec).getF "providers" = spec.getF "providers" :=
    typeRenamed_getF_ne spec _ (by decide)
  have hren : renameEnvironments (typeRenamed spec)
      = .ok ((typeRenamed spec).setF "environments" (.arr (envs.map pureRenameEnv))) :=
    renameEnvironments_compute h₀env hall
  obtain ⟨gs₁, hgs₁⟩ := setF_obj gs₀ "environments" (.arr (envs.map pureRenameEnv))
  have hgs₁ : (typeRenamed spec).setF "environments" (.arr (envs.map pureRenameEnv))
      = JVal.obj gs₁ := by rw [hgs₀]; exact hgs₁
  have h₁prov : ((typeRenamed spec).setF "environments"
      (.arr (envs.map pureRenameEnv))).getF "providers" = spec.getF "providers" := by
    rw [getF_setF_ne _ _ _ _ (by decide), h₀prov]
  have h₁env : ((typeRenamed spec).setF "environments"
      (.arr (envs.map pureRenameEnv))).getF "environments"
      = some (.arr (envs.map pureRenameEnv)) := getF_setF_eq _ _ hgs₀
  have h₁type : ((typeRenamed spec).setF "environments"
      (.arr (envs.map pureRenameEnv))).getF "type" = (typeRenamed spec).getF "type" :=
    getF_setF_ne _ _ _ _ (by decide)
  by_cases hq : truthyOpt (spec.getF "providers") = true
  · have hqs : ∃ qs, spec.getF "providers" = some (.arr qs)
        ∧ qs.all (fun p => p != .null) = true := by
      simp only [topProvidersOk, Bool.or_eq_true, Bool.not_eq_true] at htop
      rcases htop with htop | htop
      · have hff : truthyOpt (spec.getF "providers") = false := by simpa using htop
        rw [hff] at hq
        exact absurd hq (by simp)
      · cases hv : spec.getF "providers" with
        | none => rw [hv] at htop; exact absurd htop (by simp)
        | some v =>
            rw [hv] at htop
            cases v with
            | arr qs => exact ⟨qs, rfl, htop⟩
            | null => exact absurd htop (by simp)
            | bool b => exact absurd htop (by simp)
            | num n => exact absurd htop (by simp)
            | str t => exact absurd htop (by simp)
            | obj gs => exact absurd htop (by simp)
    obtain ⟨qs, hv, hqall⟩ := hqs
    have htp : renameTopProviders ((typeRenamed spec).setF "environments"
        (.arr (envs.map pureRenameEnv)))
        = .ok (((typeRenamed spec).setF "environments"
            (.arr (envs.map pureRenameEnv))).setF "providers"
              (.arr (qs.map pureRenameProvider))) :=
      renameTopProviders_arr (by rw [h₁prov, hv]) hqall
    refine ⟨(((typeRenamed spec).setF "environments"
        (.arr (envs.map pureRenameEnv))).setF "providers"
          (.arr (qs.map pureRenameProvider))), ?_, ?_, ?_, ?_, ?_, ?_⟩
    · rw [removeLocalOpenFaas_project hkind, hren]
      simp only [Bind.bind, Except.bind, htp]
    · rw [getF_setF_ne _ _ _ _ (by decide), h₁env]
    · rw [getF_setF_ne _ _ _ _ (by decide), h₁type]
    · intro qs' hv'
      rw [hv] at hv'
      obtain rfl : qs = qs' := by
        have := Option.some.inj hv'
        exact JVal.arr.inj this
      exact getF_setF_eq _ _ hgs₁
    · intro hfalse
      rw [hfalse] at hq
      exact absurd hq (by simp)
    · intro key hk₁ hk₂ hk₃
      rw [getF_setF_ne _ _ _ _ hk₃, getF_setF_ne _ _ _ _ hk₂, typeRenamed_getF_ne spec _ hk₁]
  · have hq' : truthyOpt (spec.getF "providers") = false := by
      simpa using hq
    have htp : renameTopProviders ((typeRenamed spec).setF "environments"
        (.arr (envs.map pureRenameEnv)))
        = .ok ((typeRenamed spec).setF "environments" (.arr (envs.map pureRenameEnv))) :=
      renameTopProviders_falsy (by rw [h₁prov, hq'])
    refine ⟨_, ?_, h₁env, h₁type, ?_, ?_, ?_⟩
    · rw [removeLocalOpenFaas_project hkind, hren]
      simp only [Bind.bind, Except.bind, htp]
    · intro qs hv
      rw [hv] at hq'
      exact absurd hq' (by simp [truthyOpt, JVal.truthy])
    · intro _
      rw [h₁prov]
    · intro key hk₁ hk₂ hk₃
      rw [getF_setF_ne _ _ _ _ hk₂, typeRenamed_getF_ne spec _ hk₁]

/-- C4 witness: a concrete Project spec with a `local-openfaas` module
type, one matching environment provider and one matching top-level
provider is fully renamed. -/
theorem removeLocalOpenFaas_spec_witness :
    removeLocalOpenFaas (.obj [("kind", .str "Project"), ("type", .str "local-openfaas"),
        ("environments", .arr [.obj [("name", .str "dev"),
          ("providers", .arr [.obj [("name", .str "local-openfaas")]])]]),
        ("providers", .arr [.obj [("name", .str "local-openfaas")]])])
      = .ok (.obj [("kind", .str "Project"), ("type", .str "openfaas"),
        ("environments", .arr [.obj [("name", .str "dev"),
          ("providers", .arr [.obj [("name", .str "openfaas")]])]]),
        ("providers", .arr [.obj [("name", .str "openfaas")]])]) := by
  obtain ⟨spec', hok, -, -, -, -, -⟩ :=
    (removeLocalOpenFaas_spec (.obj [("kind", .str "Project"),
        ("type", .str "local-openfaas"),
        ("environments", .arr [.obj [("name", .str "dev"),
          ("providers", .arr [.obj [("name", .str "local-openfaas")]])]]),
        ("providers", .arr [.obj [("name", .str "local-openfaas")]])])).2.2.2
      (by decide) [.obj [("name", .str "dev"),
        ("providers", .arr [.obj [("name", .str "local-openfaas")]])]]
      (by decide) (by decide) (by decide)
  have h₂ : removeLocalOpenFaas (.obj [("kind", .str "Project"),
      ("type", .str "local-openfaas"),
      ("environments", .arr [.obj [("name", .str "dev"),
        ("providers", .arr [.obj [("name", .str "local-openfaas")]])]]),
      ("providers", .arr [.obj [("name", .str "local-openfaas")]])])
      = .ok (.obj [("kind", .str "Project"), ("type", .str "openfaas"),
        ("environments", .arr [.obj [("name", .str "dev"),
          ("providers", .arr [.obj [("name", .str "openfaas")]])]]),
        ("providers", .arr [.obj [("name", .str "openfaas")]])]) := by decide
  rw [hok] at h₂
  rw [hok]
  exact h₂

/-- C9 counterexample: the migration pipeline is not idempotent.  On this
wrapped project spec the first pass succeeds, but because
`removeEnvironmentDefaults` concatenates `environmentDefaults.providers`
into the top-level list after `removeLocalOpenFaas` has already run, the
merged `local-openfaas` provider is renamed only by a second pass, which
therefore returns a different spec. -/
theorem migrate_not_idempotent :
    migrateSpec (.obj [("project", .obj [("environments", .arr []),
        ("environmentDefaults", .obj [("providers",
          .arr [.obj [("name", .str "local-openfaas")]])])])])
      = .ok (.obj [("kind", .str "Project"), ("environments", .arr []),
          ("providers", .arr [.obj [("name", .str "local-openfaas")]])])
    ∧ migrateSpec (.obj [("kind", .str "Project"), ("environments", .arr []),
          ("providers", .arr [.obj [("name", .str "local-openfaas")]])])
      ≠ .ok (.obj [("kind", .str "Project"), ("environments", .arr []),
          ("providers", .arr [.obj [("name", .str "local-openfaas")]])]) := by
  decide

/-- C9 amended: the migration pipeline is idempotent on every successful
result that has no truthy `project` or `module` field and whose top-level
providers list (when an array) contains no `null` entry and no provider
still named `"local-openfaas"`. -/
theorem migrate_idempotent_amended (s s' : JVal)
    (h : migrateSpec s = .ok s')
    (hp : truthyOpt (s'.getF "project") = false)
    (hm : truthyOpt (s'.getF "module") = false)
    (hprov : ∀ qs, s'.getF "providers" = some (.arr qs) →
        ∀ p ∈ qs, p ≠ .null ∧ p.getF "name" ≠ some (.str "local-openfaas")) :
    migrateSpec s' = .ok s' := by
  obtain ⟨t, hrl, hred⟩ := migrateSpec_ok_inv h
  have htype : s'.getF "type" = t.getF "type" :=
    removeEnvironmentDefaults_ok_getF_ne _ (by decide) (by decide) (by decide)
      (by decide) hred
  have htype_ne : s'.getF "type" ≠ some (.str "local-openfaas") := by
    rw [htype]
    exact removeLocalOpenFaas_ok_type_ne hrl
  have hkind : s'.getF "kind" = t.getF "kind" :=
    removeEnvironmentDefaults_ok_getF_ne _ (by decide) (by decide) (by decide)
      (by decide) hred
  have hedf : truthyOpt (s'.getF "environmentDefaults") = false :=
    removeEnvironmentDefaults_ok_ed_falsy hred
  have hrl2 : removeLocalOpenFaas s' = .ok s' := by
    by_cases hk : s'.getF "kind" = some (.str "Project")
    · have hkt : t.getF "kind" = some (.str "Project") := by
        rw [← hkind]
        exact hk
      rcases removeLocalOpenFaas_ok_inv hrl with ⟨hnk, rfl⟩ | ⟨hkp, u, hre, htp⟩
      · exact absurd (by rwa [typeRenamed_getF_ne _ _ (by decide)] at hkt) hnk
      · obtain ⟨envs, envs₂, hvenv, hmenv, rfl⟩ := renameEnvironments_ok_inv hre
        obtain ⟨fs₁, hfs₁⟩ := obj_of_getF_eq_some hvenv
        have huenv : ((typeRenamed (applyFlatStyle s)).setF "environments"
            (.arr envs₂)).getF "environments" = some (.arr envs₂) :=
          getF_setF_eq _ _ hfs₁
        obtain ⟨gsu, hgsu⟩ : ∃ gs, (typeRenamed (applyFlatStyle s)).setF "environments"
            (.arr envs₂) = JVal.obj gs := by
          rw [hfs₁]
          exact setF_obj _ _ _
        have htenv : t.getF "environments" = some (.arr envs₂) := by
          rcases renameTopProviders_ok_inv htp with ⟨_, rfl⟩ | ⟨ps, ps₂, hvp, hmp, rfl⟩
          · exact huenv
          · rw [getF_setF_ne _ _ _ _ (by decide)]
            exact huenv
        have hsenv : s'.getF "environments" = some (.arr envs₂) := by
          rw [removeEnvironmentDefaults_ok_getF_ne _ (by decide) (by decide) (by decide)
            (by decide) hred, htenv]
        rw [removeLocalOpenFaas_project hk, typeRenamed_id htype_ne]
        have hren2 : renameEnvironments s' = .ok s' := by
          have hms : mapExcept renameEnvProviders envs₂ = .ok envs₂ :=
            mapExcept_id (fun env₂ he₂ => by
              obtain ⟨env, _, hfe⟩ := mapExcept_ok_inv hmenv env₂ he₂
              exact renameEnvProviders_stable hfe)
          rw [renameEnvironments, hsenv]
          simp only [hms, Bind.bind, Except.bind, pure, Except.pure, Except.ok.injEq]
          exact setF_self hsenv
        simp only [hren2, Bind.bind, Except.bind]
        by_cases hq : truthyOpt (s'.getF "providers") = true
        · obtain ⟨qs, hqs⟩ : ∃ qs, s'.getF "providers" = some (.arr qs) := by
            rcases removeEnvironmentDefaults_ok_providers hred with heq | ⟨l, hl⟩
            · rcases renameTopProviders_ok_inv htp with ⟨hf, rfl⟩ | ⟨ps, ps₂, hvp, hmp, rfl⟩
              · rw [heq] at hq
                exact absurd hq (by simp [hf])
              · exact ⟨ps₂, by rw [heq, getF_setF_eq _ _ hgsu]⟩
            · exact ⟨l, hl⟩
          have hok : ∀ p ∈ qs, renameProvider p = .ok p := fun p hp₂ => by
            obtain ⟨hnp, hnm⟩ := hprov qs hqs p hp₂
            exact renameProvider_id hnp hnm
          rw [renameTopProviders, if_pos hq, hqs]
          simp only [Option.getD_some, mapExcept_id hok, Bind.bind, Except.bind, pure,
            Except.pure, Except.ok.injEq]
          exact setF_self hqs
        · exact renameTopProviders_falsy (by simpa using hq)
    · rw [removeLocalOpenFaas_nonproject hk, typeRenamed_id htype_ne]
  have hred2 : removeEnvironmentDefaults s' = .ok s' := by
    rw [removeEnvironmentDefaults, if_neg (by simp [hedf])]
    rfl
  simp only [migrateSpec, applyFlatStyle_unchanged hp hm, hrl2, Bind.bind, Except.bind,
    hred2]

/-- C9 amended witness: a concrete spec whose migration result satisfies
the side conditions and is a fixed point of a second migration. -/
theorem migrate_idempotent_amended_witness :
    migrateSpec (.obj [("kind", .str "Project"), ("environments", .arr []),
        ("providers", .arr [.obj [("name", .str "openfaas")]])])
      = .ok (.obj [("kind", .str "Project"), ("environments", .arr []),
          ("providers", .arr [.obj [("name", .str "openfaas")]])]) := by
  refine migrate_idempotent_amended
    (.obj [("project", .obj [("environments", .arr []),
      ("environmentDefaults", .obj [("providers",
        .arr [.obj [("name", .str "openfaas")]])])])])
    (.obj [("kind", .str "Project"), ("environments", .arr []),
      ("providers", .arr [.obj [("name", .str "openfaas")]])])
    (by decide) (by decide) (by decide) ?_
  intro qs hqs p hp
  have hqs' : qs = [JVal.obj [("name", JVal.str "openfaas")]] := by
    have : (JVal.obj [("kind", JVal.str "Project"), ("environments", JVal.arr []),
        ("providers", JVal.arr [JVal.obj [("name", JVal.str "openfaas")]])]).getF "providers"
        = some (JVal.arr [JVal.obj [("name", JVal.str "openfaas")]]) := by decide
    rw [this] at hqs
    exact (JVal.arr.inj (Option.some.inj hqs)).symm
  subst hqs'
  simp only [List.mem_singleton] at hp
  subst hp
  exact ⟨by decide, by decide⟩

end Garden

